import Mathlib

/-!
# LRNG: kernel crypto API DRNG backend and per-NUMA-node DRNG pool

A shallow embedding of `drivers/char/lrng/lrng_drng_kcapi.c` and
`drivers/char/lrng/lrng_numa.c`.

Conventions of the embedding

* Bytes (`u8`) are natural numbers; a byte buffer is a `List Nat`.
* A C string is the list of its bytes without the terminating NUL; `cbuf`
  gives the memory image (bytes followed by the NUL).
* A pointer returned by an allocating kernel function is either a valid object
  or an `ERR_PTR(code)`; `code` is the (negative) errno as an `Int`.
* Calls into the kernel (allocation, crypto API, locking) are recorded in an
  event trace; their results are supplied by an environment record.
-/

namespace LRNG

/-! ## Part 1: `lrng_drng_kcapi.c` -/

/-- The errno value `EINVAL`. -/
def EINVAL : Int := 22

/-- The errno value `ENOMEM`. -/
def ENOMEM : Int := 12

/-- The constant `HASH_MAX_DIGESTSIZE` of `crypto/hash.h`. -/
def HASH_MAX_DIGESTSIZE : Nat := 64

/-- Bytes of an ASCII string literal. -/
def cstr (s : String) : List Nat := s.toList.map Char.toNat

/-- Memory image of a C string: its bytes followed by the terminating NUL. -/
def cbuf (s : List Nat) : List Nat := s ++ [0]

/-- The C library function `memcmp` on the first `n` bytes of two buffers: zero when
they agree, otherwise the difference of the first pair of differing bytes.  A buffer
that ends before `n` bytes and before a difference was found compares equal from there
on (the callers below never reach that case: a C string differs from a longer literal
at its terminating NUL at the latest). -/
def memcmp : List Nat → List Nat → Nat → Int
  | _, _, 0 => 0
  | a :: as, b :: bs, n + 1 => if a = b then memcmp as bs n else (a : Int) - (b : Int)
  | _, _, _ + 1 => 0

/-- A kernel crypto API random number generator transform (`struct crypto_rng`), as far
as this file uses it: the seed size it reports and the return code of
`crypto_rng_reset` for a given seed. -/
structure crypto_rng where
  /-- Value of `crypto_rng_seedsize`. -/
  seedsize : Nat
  /-- Return code of `crypto_rng_reset(rng, seed, slen)`; `seed` has `slen` bytes. -/
  reset : List Nat → Int

/-- A kernel crypto API synchronous hash transform (`struct crypto_shash`): its digest
size and the effect of `crypto_shash_digest` on an input: the return code and the bytes
written to the output buffer. -/
structure crypto_shash where
  /-- Value of `crypto_shash_digestsize`. -/
  digestsize : Nat
  /-- Return code of `crypto_shash_digest` and the bytes it wrote to `out`. -/
  digest : List Nat → Int × List Nat

/-- The record `struct lrng_drng_info`.  `hash_tfm = none` is the NULL pointer. -/
structure lrng_drng_info where
  kcapi_rng : crypto_rng
  hash_tfm : Option crypto_shash

/-- Resources handled by `lrng_kcapi_drng_alloc`. -/
inductive Res where
  /-- The `struct lrng_drng_info` record (`kzalloc` / `kfree`). -/
  | info
  /-- The backend handle (`crypto_alloc_rng` / `crypto_free_rng`). -/
  | rng
  /-- The seed hash handle (`crypto_alloc_shash` / `crypto_free_shash`). -/
  | shash
  deriving DecidableEq, Repr

/-- Calls made by the functions of `lrng_drng_kcapi.c`, in program order. -/
inductive KEvent where
  /-- A successful allocation of a resource. -/
  | alloc (r : Res)
  /-- The release of a resource. -/
  | free (r : Res)
  /-- The call `crypto_shash_digest(shash, inbuf, inbuflen, digest)`. -/
  | shash_digest (inbuf : List Nat)
  /-- The call `shash_desc_zero(shash)`. -/
  | shash_desc_zero
  /-- The call `crypto_rng_reset(kcapi_rng, seed, slen)` with the `slen` bytes of `seed`. -/
  | rng_reset (seed : List Nat)
  /-- The call `memzero_explicit(digest, digestsize)`. -/
  | memzero_explicit (n : Nat)
  deriving DecidableEq, Repr

/-- Number of successful allocations of resource `r` in a trace. -/
def allocs (tr : List KEvent) (r : Res) : Nat := tr.count (KEvent.alloc r)

/-- Number of releases of resource `r` in a trace. -/
def frees (tr : List KEvent) (r : Res) : Nat := tr.count (KEvent.free r)

/-- The seeds handed to `crypto_rng_reset` in a trace, in order. -/
def reset_calls (tr : List KEvent) : List (List Nat) :=
  tr.filterMap (fun ev => match ev with
    | KEvent.rng_reset seed => some seed
    | _ => none)

/-- Store `src` at the start of the buffer `buf`. -/
def write_buf (buf src : List Nat) : List Nat := src ++ buf.drop src.length

/-- The effect of `memzero_explicit(buf, n)`: the first `n` bytes of `buf` become zero. -/
def memzero (buf : List Nat) (n : Nat) : List Nat :=
  List.replicate (min n buf.length) 0 ++ buf.drop n

/-- What a call of `lrng_kcapi_drng_seed_helper` leaves behind. -/
structure SeedOut where
  /-- The return value. -/
  ret : Int
  /-- Content of the local array `digest` when the function returns. -/
  digest : List Nat
  /-- The calls made, in order. -/
  events : List KEvent

/-- The function `lrng_kcapi_drng_seed_helper(drng, inbuf, inbuflen)`; `inbuflen` is the
length of `inbuf`, and `stack` is the (uninitialised) content of the local array
`digest[HASH_MAX_DIGESTSIZE]` on entry. -/
def lrng_kcapi_drng_seed_helper (drng : lrng_drng_info) (inbuf : List Nat)
    (stack : List Nat) : SeedOut :=
  let kcapi_rng := drng.kcapi_rng
  match drng.hash_tfm with
  | none =>
    { ret := kcapi_rng.reset inbuf, digest := stack, events := [KEvent.rng_reset inbuf] }
  | some hash_tfm =>
    let digestsize := hash_tfm.digestsize
    let r := hash_tfm.digest inbuf
    let digest := write_buf stack r.2
    if r.1 ≠ 0 then
      { ret := r.1, digest := digest,
        events := [KEvent.shash_digest inbuf, KEvent.shash_desc_zero] }
    else
      let seed := digest.take digestsize
      let ret := kcapi_rng.reset seed
      if ret ≠ 0 then
        { ret := ret, digest := digest,
          events := [KEvent.shash_digest inbuf, KEvent.shash_desc_zero,
                     KEvent.rng_reset seed] }
      else
        { ret := 0, digest := memzero digest digestsize,
          events := [KEvent.shash_digest inbuf, KEvent.shash_desc_zero,
                     KEvent.rng_reset seed, KEvent.memzero_explicit digestsize] }

/-- The module parameters `drng_name` and `seed_hash` (static variables of the file);
`none` is NULL. -/
structure Params where
  drng_name : Option (List Nat)
  seed_hash : Option (List Nat)

/-- What the kernel hands to one call of `lrng_kcapi_drng_alloc`. -/
structure KcapiEnv where
  /-- Value of `random_get_entropy()`. -/
  random_get_entropy : Nat
  /-- Whether `kzalloc` of the record succeeds. -/
  kzalloc_ok : Bool
  /-- Result of `crypto_alloc_rng(name, 0, 0)`: a transform or `ERR_PTR(code)`. -/
  crypto_alloc_rng : List Nat → Except Int crypto_rng
  /-- Result of `crypto_alloc_shash(name, 0, 0)`: a transform or `ERR_PTR(code)`. -/
  crypto_alloc_shash : List Nat → Except Int crypto_shash
  /-- Uninitialised content of the seed helper's local array `digest`. -/
  stack : List Nat

/-- The object representation of a `u32` (four bytes, least significant first). -/
def u32_bytes (v : Nat) : List Nat :=
  [v % 256, v / 256 % 256, v / 65536 % 256, v / 16777216 % 256]

/-- The value returned by `lrng_kcapi_drng_alloc`: a pointer to the new record or an
`ERR_PTR`. -/
inductive AllocRet where
  | ptr (info : lrng_drng_info)
  | ERR_PTR (code : Int)

/-- Whether the returned pointer is an instance (the call succeeded). -/
def AllocRet.ok : AllocRet → Bool
  | AllocRet.ptr _ => true
  | AllocRet.ERR_PTR _ => false

/-- Result of a run of `lrng_kcapi_drng_alloc`: return value, the module parameters
after the run, and the calls made. -/
structure AllocOut where
  ret : AllocRet
  params : Params
  events : List KEvent

/-- The denylist test of `lrng_kcapi_drng_alloc` (lines 89 to 92). -/
def denylisted (drng_name : List Nat) : Bool :=
  memcmp (cbuf drng_name) (cbuf (cstr "stdrng")) 6 = 0 ||
  memcmp (cbuf drng_name) (cbuf (cstr "lrng")) 4 = 0 ||
  memcmp (cbuf drng_name) (cbuf (cstr "drbg")) 4 = 0 ||
  memcmp (cbuf drng_name) (cbuf (cstr "jitterentropy_rng")) 17 = 0

/-- The `switch (seedsize)` of lines 115 to 129: the hash name chosen for a seed size,
or `none` for the `default` case. -/
def seed_hash_for (seedsize : Nat) : Option (List Nat) :=
  if seedsize = 32 then some (cstr "sha256")
  else if seedsize = 48 then some (cstr "sha384")
  else if seedsize = 64 then some (cstr "sha512")
  else none

/-- The four bytes of the local `u32 time = random_get_entropy()` that the bootstrap
seed call reads. -/
def time_bytes (env : KcapiEnv) : List Nat := u32_bytes (env.random_get_entropy % 2 ^ 32)

/-- The tail of `lrng_kcapi_drng_alloc` from line 150: the bootstrap seed call and the
two exits. `tr` holds the calls made so far. -/
def alloc_seed (env : KcapiEnv) (p : Params) (info : lrng_drng_info) (tr : List KEvent) :
    AllocOut :=
  let s := lrng_kcapi_drng_seed_helper info (time_bytes env) env.stack
  if s.ret ≠ 0 then
    -- ret = ERR_PTR(rv); goto dealloc
    { ret := AllocRet.ERR_PTR s.ret, params := p,
      events := tr ++ s.events ++ [KEvent.free Res.rng, KEvent.free Res.info] }
  else
    { ret := AllocRet.ptr info, params := p, events := tr ++ s.events }

/-- The function `lrng_kcapi_drng_alloc(sec_strength)` (the argument is not used by the
code). -/
def lrng_kcapi_drng_alloc (env : KcapiEnv) (p : Params) : AllocOut :=
  -- void *ret = ERR_PTR(-ENOMEM)
  let ret0 : AllocRet := AllocRet.ERR_PTR (-ENOMEM)
  match p.drng_name with
  | none => { ret := AllocRet.ERR_PTR (-EINVAL), params := p, events := [] }
  | some drng_name =>
    if denylisted drng_name then
      { ret := AllocRet.ERR_PTR (-EINVAL), params := p, events := [] }
    else if !env.kzalloc_ok then
      { ret := AllocRet.ERR_PTR (-ENOMEM), params := p, events := [] }
    else
      match env.crypto_alloc_rng drng_name with
      | Except.error e =>
        -- ret = ERR_CAST(kcapi_rng); goto free
        { ret := AllocRet.ERR_PTR e, params := p,
          events := [KEvent.alloc Res.info, KEvent.free Res.info] }
      | Except.ok kcapi_rng =>
        let tr := [KEvent.alloc Res.info, KEvent.alloc Res.rng]
        let info : lrng_drng_info := { kcapi_rng := kcapi_rng, hash_tfm := none }
        let seedsize := kcapi_rng.seedsize
        if seedsize ≠ 0 then
          -- if (!seed_hash) switch (seedsize) ...
          let chosen : Option (List Nat) :=
            match p.seed_hash with
            | some h => some h
            | none => seed_hash_for seedsize
          match chosen with
          | none =>
            -- default: goto dealloc, with ret as initialised
            { ret := ret0, params := p,
              events := tr ++ [KEvent.free Res.rng, KEvent.free Res.info] }
          | some seed_hash =>
            let p1 : Params := { p with seed_hash := some seed_hash }
            match env.crypto_alloc_shash seed_hash with
            | Except.error e =>
              { ret := AllocRet.ERR_PTR e, params := p1,
                events := tr ++ [KEvent.free Res.rng, KEvent.free Res.info] }
            | Except.ok hash_tfm =>
              if seedsize ≠ hash_tfm.digestsize then
                { ret := AllocRet.ERR_PTR (-EINVAL), params := p1,
                  events := tr ++ [KEvent.alloc Res.shash, KEvent.free Res.shash,
                                   KEvent.free Res.rng, KEvent.free Res.info] }
              else
                alloc_seed env p1 { info with hash_tfm := some hash_tfm }
                  (tr ++ [KEvent.alloc Res.shash])
        else
          alloc_seed env p info tr

/-- The errno carried by a returned `ERR_PTR`, `none` for a valid pointer. -/
def AllocRet.err : AllocRet → Option Int
  | AllocRet.ptr _ => none
  | AllocRet.ERR_PTR code => some code

/-! ### Sample transforms, used to evaluate the model on concrete inputs -/

/-- A backend with seed size `S` whose reset always succeeds. -/
def rng_accepting (S : Nat) : crypto_rng := { seedsize := S, reset := fun _ => 0 }

/-- A backend with seed size `S` whose reset always fails with `-EINVAL`. -/
def rng_refusing (S : Nat) : crypto_rng := { seedsize := S, reset := fun _ => -EINVAL }

/-- A hash with digest size `D` that always succeeds; its digest bytes are all non-zero. -/
def hash_working (D : Nat) : crypto_shash :=
  { digestsize := D,
    digest := fun inbuf => (0, (List.range D).map (fun i => (inbuf.sum + i) % 255 + 1)) }

/-- A hash with digest size `D` whose digest operation fails with `-ENOMEM` and writes
nothing. -/
def hash_failing (D : Nat) : crypto_shash :=
  { digestsize := D, digest := fun _ => (-ENOMEM, []) }

/-- An environment in which every allocation succeeds: the backend is `rng` and the
hash is `h`, whatever name is asked for. -/
def env_with (rng : crypto_rng) (h : crypto_shash) : KcapiEnv :=
  { random_get_entropy := 305419896, kzalloc_ok := true,
    crypto_alloc_rng := fun _ => Except.ok rng,
    crypto_alloc_shash := fun _ => Except.ok h,
    stack := List.replicate HASH_MAX_DIGESTSIZE 255 }

/-! ## Part 2: `lrng_numa.c` -/

/-- Address of a `struct lrng_drng`. -/
abbrev Ptr := Nat

/-- The members of `struct lrng_drng` (declared in `lrng_drng_mgr.h`) that
`lrng_numa.c` reads or writes.  `none` is the NULL pointer; `lock` and `hash_lock`
tell whether `mutex_init` and `rwlock_init` have run on the member. -/
structure lrng_drng where
  /-- Member `void *drng`: the backend handle. -/
  drng : Option Nat
  /-- Member `void *hash`: the hash handle. -/
  hash : Option Nat
  /-- Member `const struct lrng_drng_cb *drng_cb`: the backend descriptor. -/
  drng_cb : Option Nat
  /-- Member `const struct lrng_hash_cb *hash_cb`: the hash descriptor. -/
  hash_cb : Option Nat
  lock : Bool
  hash_lock : Bool
  deriving DecidableEq, Repr

/-- Calls made by `_lrng_drngs_numa_alloc`, in program order. -/
inductive NEvent where
  | mutex_lock
  | mutex_unlock
  /-- The call `kcalloc(nr_node_ids, sizeof(void *), ...)` for the array. -/
  | kcalloc (n : Nat)
  /-- The call `kmalloc_node` for the node, returning the address `p`. -/
  | kmalloc_node (p : Ptr) (node : Nat)
  /-- The backend descriptor `cb` allocated the handle `h` (`drng_alloc`). -/
  | drng_alloc (cb : Nat) (h : Nat)
  /-- The hash descriptor `cb` allocated the handle `h` (`hash_alloc`). -/
  | hash_alloc (cb : Option Nat) (h : Nat)
  | mutex_init (p : Ptr)
  | rwlock_init (p : Ptr)
  | lrng_pool_inc_numa_node
  | lrng_pool_all_numa_nodes_seeded (b : Bool)
  /-- The compare-and-exchange at line 87 stored the new array in `lrng_drng`. -/
  | cmpxchg_stored
  /-- The call `hash_cb->hash_dealloc(h)` through descriptor `cb`. -/
  | hash_dealloc (cb : Option Nat) (h : Option Nat)
  /-- The call `drng_cb->drng_dealloc(h)` through descriptor `cb`. -/
  | drng_dealloc (cb : Option Nat) (h : Option Nat)
  /-- The call `kfree(p)` on an instance record. -/
  | kfree (p : Ptr)
  /-- The call `kfree(drngs)` on the array. -/
  | kfree_drngs
  deriving DecidableEq, Repr

/-- The memory the job works on: the static pointer `lrng_drng` (NULL, or the array it
points to, one slot per node id, a slot being NULL or an instance address) and the
instance records obtained from `kmalloc_node` that are live. -/
structure Kernel where
  heap : Ptr → Option lrng_drng
  lrng_drng : Option (List (Option Ptr))

/-- What the kernel and the rest of the LRNG hand to one run of
`_lrng_drngs_numa_alloc`. -/
structure NumaEnv where
  /-- Value of `lrng_drng_init_instance()`: the address of the initial instance. -/
  lrng_drng_init : Ptr
  /-- Value of `lrng_drng_init->drng_cb`. -/
  init_drng_cb : Nat
  /-- Value of `lrng_drng_init->hash_cb`. -/
  init_hash_cb : Option Nat
  /-- Return value of `lrng_drng_initalize()`. -/
  lrng_drng_initalize : Int
  /-- The kernel variable `nr_node_ids`. -/
  nr_node_ids : Nat
  /-- Whether a node id is online. -/
  node_online : Nat → Bool
  /-- Address returned by `kmalloc_node` for a node (with `__GFP_NOFAIL` it is never
  NULL). -/
  kmalloc_node : Nat → Ptr
  /-- Content of the memory returned by `kmalloc_node` for a node (not initialised). -/
  junk : Nat → lrng_drng
  /-- Result of the backend descriptor's allocate operation for the instance of a
  node: a handle or `ERR_PTR(code)`. -/
  drng_alloc : Nat → Except Int Nat
  /-- Result of `hash_cb->hash_alloc()` for the instance of a node: a handle or
  `ERR_PTR(code)`. -/
  hash_alloc : Nat → Except Int Nat

/-- The function `lrng_drng_instances()`. -/
def lrng_drng_instances (k : Kernel) : Option (List (Option Ptr)) := k.lrng_drng

/-- The node ids visited by `for_each_online_node`: the online ones in ascending order.
Every online node is a possible node, and `nr_node_ids` is one more than the highest
possible node id. -/
def for_each_online_node (e : NumaEnv) : List Nat :=
  (List.range e.nr_node_ids).filter e.node_online

/-- Modelled from the spec: the helper `lrng_drng_alloc_common(drng, drng_cb)` of
`lrng_drng_mgr.c`, whose source is not at hand.  It constructs the instance with the
given backend descriptor (spec 4.3 and 4.4 step 5): the descriptor allocates a backend
handle; on success descriptor and handle are stored in the record and the result is
zero (`Except.ok`); on failure nothing stays allocated and the result is non-zero
(`Except.error`).  `backend` is the result of the descriptor's allocate operation. -/
def lrng_drng_alloc_common (backend : Except Int Nat) (drng : lrng_drng) (drng_cb : Nat) :
    Except Int (lrng_drng × List NEvent) :=
  match backend with
  | Except.error code => Except.error code
  | Except.ok h =>
    Except.ok ({ drng with drng_cb := some drng_cb, drng := some h },
               [NEvent.drng_alloc drng_cb h])

/-- Local state of `_lrng_drngs_numa_alloc` while it builds: the array `drngs`, the
flag `init_drng_used`, the instance records and the calls made so far. -/
structure Build where
  drngs : List (Option Ptr)
  init_drng_used : Bool
  heap : Ptr → Option lrng_drng
  trace : List NEvent

/-- How an iteration of the first loop ends: it falls through to the next node, or
jumps to the label `err`. -/
inductive Flow where
  | next (b : Build)
  | goto_err (b : Build)

/-- The local state at the end of an iteration, whichever way it ends. -/
def Flow.build : Flow → Build
  | Flow.next b => b
  | Flow.goto_err b => b

/-- Store a record at an address. -/
def store (heap : Ptr → Option lrng_drng) (p : Ptr) (v : Option lrng_drng) :
    Ptr → Option lrng_drng :=
  fun q => if q = p then v else heap q

/-- The body of the loop of lines 46 to 84 for one node. -/
def build_node (e : NumaEnv) (node : Nat) (b : Build) : Flow :=
  if !b.init_drng_used then
    Flow.next { b with drngs := b.drngs.set node (some e.lrng_drng_init),
                       init_drng_used := true }
  else
    let p := e.kmalloc_node node
    -- memset(drng, 0, sizeof(lrng_drng)): the size is that of the static pointer, so
    -- the leading pointer-sized member `drng` is cleared
    let drng0 : lrng_drng := { e.junk node with drng := none }
    let tr := b.trace ++ [NEvent.kmalloc_node p node]
    match lrng_drng_alloc_common (e.drng_alloc node) drng0 e.init_drng_cb with
    | Except.error _ =>
      Flow.goto_err { b with heap := store b.heap p none, trace := tr ++ [NEvent.kfree p] }
    | Except.ok (drng1, evs) =>
      let drng2 : lrng_drng := { drng1 with hash_cb := e.init_hash_cb }
      match e.hash_alloc node with
      | Except.error _ =>
        Flow.goto_err { b with
          heap := store b.heap p none,
          trace := tr ++ evs ++ [NEvent.drng_dealloc (some e.init_drng_cb) drng2.drng,
                                 NEvent.kfree p] }
      | Except.ok hh =>
        let drng3 : lrng_drng := { drng2 with hash := some hh, lock := true,
                                              hash_lock := true }
        Flow.next { b with
          drngs := b.drngs.set node (some p),
          heap := store b.heap p (some drng3),
          trace := tr ++ evs ++ [NEvent.hash_alloc e.init_hash_cb hh, NEvent.mutex_init p,
                                 NEvent.rwlock_init p, NEvent.lrng_pool_inc_numa_node] }

/-- The loop of lines 46 to 84 over the given nodes. -/
def build_loop (e : NumaEnv) : List Nat → Build → Flow
  | [], b => Flow.next b
  | node :: rest, b =>
    match build_node e node b with
    | Flow.next b1 => build_loop e rest b1
    | Flow.goto_err b1 => Flow.goto_err b1

/-- The loop at label `err` (lines 93 to 104) over the given nodes.  The result is
`none` when the loop dereferences an address that holds no live record. -/
def rollback_loop (e : NumaEnv) (drngs : List (Option Ptr)) :
    List Nat → (Ptr → Option lrng_drng) × List NEvent →
    Option ((Ptr → Option lrng_drng) × List NEvent)
  | [], s => some s
  | node :: rest, s =>
    let slot := drngs.getD node none
    if slot = some e.lrng_drng_init then rollback_loop e drngs rest s
    else
      match slot with
      | none => rollback_loop e drngs rest s
      | some p =>
        match s.1 p with
        | none => none
        | some drng =>
          rollback_loop e drngs rest
            (store s.1 p none,
             s.2 ++ [NEvent.hash_dealloc drng.hash_cb drng.hash,
                     NEvent.drng_dealloc drng.drng_cb drng.drng, NEvent.kfree p])

/-- The code from label `err` to the end (lines 92 to 109).  `published` is the value
of the static pointer, which this code leaves alone.  `drngs` is the local variable of
that name: `none` when no value was ever assigned to it, in which case reading it is
undefined and the run has no defined result. -/
def err_path (e : NumaEnv) (published : Option (List (Option Ptr)))
    (drngs : Option (List (Option Ptr))) (heap : Ptr → Option lrng_drng)
    (trace : List NEvent) : Option (Kernel × List NEvent) :=
  match drngs with
  | none => none
  | some arr =>
    match rollback_loop e arr (for_each_online_node e) (heap, trace) with
    | none => none
    | some (heap1, trace1) =>
      some ({ lrng_drng := published, heap := heap1 },
            trace1 ++ [NEvent.kfree_drngs, NEvent.mutex_unlock])

/-- The work function `_lrng_drngs_numa_alloc(work)`: the memory after the run and the
calls made, or `none` when the run has undefined behaviour. -/
def _lrng_drngs_numa_alloc (e : NumaEnv) (k : Kernel) : Option (Kernel × List NEvent) :=
  match k.lrng_drng with
  | some _ =>
    -- if (lrng_drng) goto unlock
    some (k, [NEvent.mutex_lock, NEvent.mutex_unlock])
  | none =>
    if e.lrng_drng_initalize ≠ 0 then
      -- goto err, before `drngs` is assigned
      err_path e k.lrng_drng none k.heap [NEvent.mutex_lock]
    else
      let b0 : Build :=
        { drngs := List.replicate e.nr_node_ids none, init_drng_used := false,
          heap := k.heap, trace := [NEvent.mutex_lock, NEvent.kcalloc e.nr_node_ids] }
      match build_loop e (for_each_online_node e) b0 with
      | Flow.next b =>
        -- if (!cmpxchg_release(&lrng_drng, NULL, drngs))
        match k.lrng_drng with
        | none =>
          some ({ lrng_drng := some b.drngs, heap := b.heap },
                b.trace ++ [NEvent.cmpxchg_stored,
                            NEvent.lrng_pool_all_numa_nodes_seeded false,
                            NEvent.mutex_unlock])
        | some old => err_path e (some old) (some b.drngs) b.heap b.trace
      | Flow.goto_err b => err_path e k.lrng_drng (some b.drngs) b.heap b.trace

/-- A sequence of runs of the job, one environment per run; the calls of all runs are
concatenated.  The result is `none` as soon as a run has undefined behaviour. -/
def runs : List NumaEnv → Kernel → Option (Kernel × List NEvent)
  | [], k => some (k, [])
  | e :: es, k =>
    match _lrng_drngs_numa_alloc e k with
    | none => none
    | some (k1, tr1) =>
      match runs es k1 with
      | none => none
      | some (k2, tr2) => some (k2, tr1 ++ tr2)

/-- Number of stores to the static pointer `lrng_drng` in a trace. -/
def stores (tr : List NEvent) : Nat := tr.count NEvent.cmpxchg_stored

/-- An instance record as the build loop leaves it: backend handle and hash handle
present, descriptors those of the initial instance, both locks initialised. -/
def constructed (e : NumaEnv) (d : lrng_drng) : Prop :=
  d.drng.isSome = true ∧ d.hash.isSome = true ∧ d.drng_cb = some e.init_drng_cb ∧
  d.hash_cb = e.init_hash_cb ∧ d.lock = true ∧ d.hash_lock = true

/-- Memory before the job ever ran: nothing published, no instance record allocated. -/
def boot : Kernel := { lrng_drng := none, heap := fun _ => none }

/-- A sample environment: `nr` node ids, the online ones given by `online`, the initial
instance at address 1000, the record of node `n` at address `2000 + n`, and the
allocations for nodes listed in `bad_drng` and `bad_hash` failing. -/
def sample_env (nr : Nat) (online bad_drng bad_hash : List Nat) (rc : Int) : NumaEnv :=
  { lrng_drng_init := 1000, init_drng_cb := 7, init_hash_cb := some 8,
    lrng_drng_initalize := rc, nr_node_ids := nr,
    node_online := fun n => decide (n ∈ online),
    kmalloc_node := fun n => 2000 + n,
    junk := fun _ => { drng := some 99, hash := some 98, drng_cb := some 97,
                       hash_cb := some 96, lock := false, hash_lock := false },
    drng_alloc := fun n => if n ∈ bad_drng then Except.error (-ENOMEM) else Except.ok (3000 + n),
    hash_alloc := fun n => if n ∈ bad_hash then Except.error (-ENOMEM) else Except.ok (4000 + n) }

/-! ## Theorems about `lrng_drng_kcapi.c` -/

/-- Buffers with a common start compare equal over the length of that start. -/
theorem memcmp_common_start (lit r1 r2 : List Nat) :
    memcmp (lit ++ r1) (lit ++ r2) lit.length = 0 := by
  induction lit with
  | nil => simp [memcmp]
  | cons a as ih => simp [memcmp, ih]

/-- A name that begins with a reserved literal passes the `memcmp` test for it. -/
theorem memcmp_reserved (lit name : List Nat) (n : Nat) (hn : lit.length = n)
    (h : lit <+: name) : memcmp (cbuf name) (cbuf lit) n = 0 := by
  obtain ⟨t, rfl⟩ := h
  subst hn
  simp only [cbuf, List.append_assoc]
  exact memcmp_common_start lit (t ++ [0]) [0]

/-- Names beginning with a reserved name are denylisted. -/
theorem denylisted_of_reserved (name : List Nat)
    (h : cstr "stdrng" <+: name ∨ cstr "lrng" <+: name ∨ cstr "drbg" <+: name ∨
         cstr "jitterentropy_rng" <+: name) : denylisted name = true := by
  unfold denylisted
  rcases h with h | h | h | h
  · simp [memcmp_reserved _ name 6 (by decide) h]
  · simp [memcmp_reserved _ name 4 (by decide) h]
  · simp [memcmp_reserved _ name 4 (by decide) h]
  · simp [memcmp_reserved _ name 17 (by decide) h]

/-- C2: when no backend name is configured, or the configured name is equal to or
begins with one of the reserved names "stdrng", "lrng", "drbg", "jitterentropy_rng",
`lrng_kcapi_drng_alloc` returns `ERR_PTR(-EINVAL)` and makes no call at all: neither the
instance record nor a backend handle nor a hash handle is allocated. -/
theorem C2_reserved_name_rejected (env : KcapiEnv) (p : Params)
    (h : p.drng_name = none ∨ ∃ name, p.drng_name = some name ∧
      (cstr "stdrng" <+: name ∨ cstr "lrng" <+: name ∨ cstr "drbg" <+: name ∨
       cstr "jitterentropy_rng" <+: name)) :
    (lrng_kcapi_drng_alloc env p).ret.err = some (-EINVAL) ∧
    (lrng_kcapi_drng_alloc env p).events = [] ∧
    ∀ r, allocs (lrng_kcapi_drng_alloc env p).events r = 0 := by
  have key : (lrng_kcapi_drng_alloc env p).ret.err = some (-EINVAL) ∧
      (lrng_kcapi_drng_alloc env p).events = [] := by
    rcases h with h | ⟨name, h, hres⟩
    · simp [lrng_kcapi_drng_alloc, h, AllocRet.err]
    · simp [lrng_kcapi_drng_alloc, h, denylisted_of_reserved name hres, AllocRet.err]
  refine ⟨key.1, key.2, ?_⟩
  intro r
  simp [key.2, allocs]

/-- C2 at the name "drbg_nopr_sha256", which begins with "drbg": the call returns
`ERR_PTR(-EINVAL)` and nothing is allocated. -/
theorem C2_reserved_name_rejected_witness :
    ((lrng_kcapi_drng_alloc (env_with (rng_accepting 32) (hash_working 32))
        { drng_name := some (cstr "drbg_nopr_sha256"), seed_hash := none }).ret.err
        = some (-EINVAL) ∧
      (lrng_kcapi_drng_alloc (env_with (rng_accepting 32) (hash_working 32))
        { drng_name := some (cstr "drbg_nopr_sha256"), seed_hash := none }).events = [] ∧
      ∀ r, allocs (lrng_kcapi_drng_alloc (env_with (rng_accepting 32) (hash_working 32))
        { drng_name := some (cstr "drbg_nopr_sha256"), seed_hash := none }).events r = 0) :=
  C2_reserved_name_rejected (env_with (rng_accepting 32) (hash_working 32))
    { drng_name := some (cstr "drbg_nopr_sha256"), seed_hash := none }
    (Or.inr ⟨cstr "drbg_nopr_sha256", rfl,
      Or.inr (Or.inr (Or.inl ⟨cstr "_nopr_sha256", by decide⟩))⟩)

/-- C1: with a backend name that is present and not denylisted, a backend of seed size
`S = rng.seedsize`, an explicitly configured seed hash of digest size
`D = h.digestsize`, and the record allocation, the backend allocation, the hash
allocation and the bootstrap seed call succeeding: when `S` is not zero the allocation
succeeds exactly when `S = D` (and the instance then carries the hash); when `S` is zero
it succeeds with `hash_tfm` NULL and without allocating a hash, and every later seed
call on the instance makes exactly one call, the backend reset with the raw input. -/
theorem C1_seed_size_digest_size (env : KcapiEnv) (p : Params) (name hname : List Nat)
    (rng : crypto_rng) (h : crypto_shash)
    (hname_set : p.drng_name = some name) (hallowed : denylisted name = false)
    (hrec : env.kzalloc_ok = true)
    (hrng : env.crypto_alloc_rng name = Except.ok rng)
    (hhash_set : p.seed_hash = some hname)
    (hhash : env.crypto_alloc_shash hname = Except.ok h)
    (hboot : (lrng_kcapi_drng_seed_helper
        { kcapi_rng := rng, hash_tfm := if rng.seedsize = 0 then none else some h }
        (time_bytes env) env.stack).ret = 0) :
    (rng.seedsize ≠ 0 →
      (((lrng_kcapi_drng_alloc env p).ret.ok = true ↔ rng.seedsize = h.digestsize) ∧
       (rng.seedsize = h.digestsize → ∃ info,
          (lrng_kcapi_drng_alloc env p).ret = AllocRet.ptr info ∧
          info.hash_tfm.map crypto_shash.digestsize = some rng.seedsize))) ∧
    (rng.seedsize = 0 → ∃ info,
      (lrng_kcapi_drng_alloc env p).ret = AllocRet.ptr info ∧
      info.hash_tfm.isNone = true ∧
      allocs (lrng_kcapi_drng_alloc env p).events Res.shash = 0 ∧
      ∀ inbuf stack, (lrng_kcapi_drng_seed_helper info inbuf stack).events
        = [KEvent.rng_reset inbuf]) := by
  constructor
  · intro hS
    simp only [if_neg hS] at hboot
    by_cases hSD : rng.seedsize = h.digestsize
    · have hD : h.digestsize ≠ 0 := fun h0 => hS (hSD.trans h0)
      have hrun : (lrng_kcapi_drng_alloc env p).ret
          = AllocRet.ptr { kcapi_rng := rng, hash_tfm := some h } := by
        simp [lrng_kcapi_drng_alloc, hname_set, hallowed, hrec, hrng, hhash_set, hhash,
          hD, hSD, alloc_seed, hboot]
      refine ⟨?_, fun _ => ⟨_, hrun, ?_⟩⟩
      · simp [hrun, AllocRet.ok, hSD]
      · simp [hSD]
    · have hrun : (lrng_kcapi_drng_alloc env p).ret = AllocRet.ERR_PTR (-EINVAL) := by
        simp [lrng_kcapi_drng_alloc, hname_set, hallowed, hrec, hrng, hhash_set, hhash,
          hS, hSD]
      refine ⟨?_, fun hc => absurd hc hSD⟩
      simp [hrun, AllocRet.ok, hSD]
  · intro hS
    simp only [if_pos hS] at hboot
    refine ⟨{ kcapi_rng := rng, hash_tfm := none }, ?_, rfl, ?_, ?_⟩
    · simp [lrng_kcapi_drng_alloc, hname_set, hallowed, hrec, hrng, hS, alloc_seed, hboot]
    · simp only [lrng_kcapi_drng_alloc, hname_set, hallowed, hrec, hrng, hS, alloc_seed,
        hboot]
      simp [allocs, lrng_kcapi_drng_seed_helper]
    · intro inbuf stack
      simp [lrng_kcapi_drng_seed_helper]

/-- C1 at concrete inputs: seed size 32 with a 32-byte hash succeeds, seed size 32 with
a 48-byte hash fails, and seed size 0 succeeds without a conditioner. -/
theorem C1_seed_size_digest_size_witness :
    (lrng_kcapi_drng_alloc (env_with (rng_accepting 32) (hash_working 32))
      { drng_name := some (cstr "ansi_cprng"), seed_hash := some (cstr "sha256") }).ret.ok
      = true ∧
    ¬ ((lrng_kcapi_drng_alloc (env_with (rng_accepting 32) (hash_working 48))
      { drng_name := some (cstr "ansi_cprng"), seed_hash := some (cstr "sha384") }).ret.ok
      = true) ∧
    allocs (lrng_kcapi_drng_alloc (env_with (rng_accepting 0) (hash_working 32))
      { drng_name := some (cstr "ansi_cprng"), seed_hash := some (cstr "sha256") }).events
      Res.shash = 0 :=
  ⟨((C1_seed_size_digest_size (env_with (rng_accepting 32) (hash_working 32))
      { drng_name := some (cstr "ansi_cprng"), seed_hash := some (cstr "sha256") }
      (cstr "ansi_cprng") (cstr "sha256") (rng_accepting 32) (hash_working 32)
      rfl (by decide) rfl rfl rfl rfl (by decide)).1 (by decide)).1.mpr (by decide),
   fun hok => absurd
    (((C1_seed_size_digest_size (env_with (rng_accepting 32) (hash_working 48))
      { drng_name := some (cstr "ansi_cprng"), seed_hash := some (cstr "sha384") }
      (cstr "ansi_cprng") (cstr "sha384") (rng_accepting 32) (hash_working 48)
      rfl (by decide) rfl rfl rfl rfl (by decide)).1 (by decide)).1.mp hok) (by decide),
   by
    obtain ⟨_, _, _, h0, _⟩ :=
      (C1_seed_size_digest_size (env_with (rng_accepting 0) (hash_working 32))
        { drng_name := some (cstr "ansi_cprng"), seed_hash := some (cstr "sha256") }
        (cstr "ansi_cprng") (cstr "sha256") (rng_accepting 0) (hash_working 32)
        rfl (by decide) rfl rfl rfl rfl (by decide)).2 rfl
    exact h0⟩

/-- C3 (evaluation): with no seed hash configured and a backend of seed size 20, the
`default` case of the switch leaves `ret` at its initial value, so the call returns
`ERR_PTR(-ENOMEM)`, not `ERR_PTR(-EINVAL)`; the backend handle and the record are
freed. -/
theorem C3_unmapped_seed_size_returns_ENOMEM :
    (lrng_kcapi_drng_alloc (env_with (rng_accepting 20) (hash_working 32))
      { drng_name := some (cstr "ansi_cprng"), seed_hash := none }).ret.err
      = some (-ENOMEM) ∧
    (lrng_kcapi_drng_alloc (env_with (rng_accepting 20) (hash_working 32))
      { drng_name := some (cstr "ansi_cprng"), seed_hash := none }).ret.err
      ≠ some (-EINVAL) ∧
    (lrng_kcapi_drng_alloc (env_with (rng_accepting 20) (hash_working 32))
      { drng_name := some (cstr "ansi_cprng"), seed_hash := none }).events
      = [KEvent.alloc Res.info, KEvent.alloc Res.rng, KEvent.free Res.rng,
         KEvent.free Res.info] := by
  decide

/-- The fixed mapping from seed size to hash name. -/
theorem seed_hash_for_sizes :
    seed_hash_for 32 = some (cstr "sha256") ∧ seed_hash_for 48 = some (cstr "sha384") ∧
    seed_hash_for 64 = some (cstr "sha512") ∧
    ∀ S, S ≠ 32 → S ≠ 48 → S ≠ 64 → seed_hash_for S = none := by
  refine ⟨by decide, by decide, by decide, ?_⟩
  intro S h1 h2 h3
  simp [seed_hash_for, h1, h2, h3]

/-- With no seed hash configured, every non-zero seed size other than 32, 48 and 64
makes the allocation return `ERR_PTR(-ENOMEM)` with the backend handle and the record
freed. -/
theorem unmapped_seed_size (env : KcapiEnv) (p : Params) (name : List Nat)
    (rng : crypto_rng)
    (hname_set : p.drng_name = some name) (hallowed : denylisted name = false)
    (hrec : env.kzalloc_ok = true) (hrng : env.crypto_alloc_rng name = Except.ok rng)
    (hnohash : p.seed_hash = none)
    (h0 : rng.seedsize ≠ 0) (h1 : rng.seedsize ≠ 32) (h2 : rng.seedsize ≠ 48)
    (h3 : rng.seedsize ≠ 64) :
    (lrng_kcapi_drng_alloc env p).ret.err = some (-ENOMEM) ∧
    (lrng_kcapi_drng_alloc env p).events
      = [KEvent.alloc Res.info, KEvent.alloc Res.rng, KEvent.free Res.rng,
         KEvent.free Res.info] := by
  simp [lrng_kcapi_drng_alloc, hname_set, hallowed, hrec, hrng, hnohash, h0, seed_hash_for,
    h1, h2, h3, AllocRet.err]

/-- C4 (evaluation): backend (seed size 32) and seed hash (digest size 32) are both
allocated, the bootstrap seed call fails with `-EINVAL`: the call returns that error,
the backend handle and the record are freed, and the hash handle is allocated once and
never freed. -/
theorem C4_hash_handle_leaked_on_seed_failure :
    (lrng_kcapi_drng_alloc (env_with (rng_refusing 32) (hash_working 32))
      { drng_name := some (cstr "ansi_cprng"), seed_hash := some (cstr "sha256") }).ret.err
      = some (-EINVAL) ∧
    allocs (lrng_kcapi_drng_alloc (env_with (rng_refusing 32) (hash_working 32))
      { drng_name := some (cstr "ansi_cprng"), seed_hash := some (cstr "sha256") }).events
      Res.shash = 1 ∧
    frees (lrng_kcapi_drng_alloc (env_with (rng_refusing 32) (hash_working 32))
      { drng_name := some (cstr "ansi_cprng"), seed_hash := some (cstr "sha256") }).events
      Res.shash = 0 ∧
    frees (lrng_kcapi_drng_alloc (env_with (rng_refusing 32) (hash_working 32))
      { drng_name := some (cstr "ansi_cprng"), seed_hash := some (cstr "sha256") }).events
      Res.rng = 1 ∧
    frees (lrng_kcapi_drng_alloc (env_with (rng_refusing 32) (hash_working 32))
      { drng_name := some (cstr "ansi_cprng"), seed_hash := some (cstr "sha256") }).events
      Res.info = 1 := by
  decide

/-- C5 (evaluation): on an instance with a 32-byte conditioner whose backend reset
fails, the helper returns the error while the local array `digest` still holds the
digest just computed; and when the hash operation fails, the helper returns with the
array as the hash operation left it (here its uninitialised content), not zeroed. -/
theorem C5_digest_left_on_error_paths :
    (lrng_kcapi_drng_seed_helper
      { kcapi_rng := rng_refusing 32, hash_tfm := some (hash_working 32) }
      [1, 2, 3, 4] (List.replicate 64 0)).ret = -EINVAL ∧
    (lrng_kcapi_drng_seed_helper
      { kcapi_rng := rng_refusing 32, hash_tfm := some (hash_working 32) }
      [1, 2, 3, 4] (List.replicate 64 0)).digest.take 32
      = ((hash_working 32).digest [1, 2, 3, 4]).2 ∧
    (lrng_kcapi_drng_seed_helper
      { kcapi_rng := rng_refusing 32, hash_tfm := some (hash_working 32) }
      [1, 2, 3, 4] (List.replicate 64 0)).digest.take 32 ≠ List.replicate 32 0 ∧
    (lrng_kcapi_drng_seed_helper
      { kcapi_rng := rng_accepting 32, hash_tfm := some (hash_failing 32) }
      [1, 2, 3, 4] (List.replicate 64 255)).ret = -ENOMEM ∧
    (lrng_kcapi_drng_seed_helper
      { kcapi_rng := rng_accepting 32, hash_tfm := some (hash_failing 32) }
      [1, 2, 3, 4] (List.replicate 64 255)).digest.take 32 ≠ List.replicate 32 0 := by
  decide

/-- On the success path of the helper with a conditioner, the first `digestsize` bytes
of the local array `digest` are zero on return. -/
theorem digest_erased_on_success (drng : lrng_drng_info) (h : crypto_shash)
    (inbuf stack : List Nat) (hcond : drng.hash_tfm = some h)
    (hret : (lrng_kcapi_drng_seed_helper drng inbuf stack).ret = 0)
    (hlen : h.digestsize ≤ stack.length) :
    (lrng_kcapi_drng_seed_helper drng inbuf stack).digest.take h.digestsize
      = List.replicate h.digestsize 0 := by
  unfold lrng_kcapi_drng_seed_helper at hret ⊢
  simp only [hcond] at hret ⊢
  by_cases h1 : (h.digest inbuf).1 = 0
  · by_cases h2 : drng.kcapi_rng.reset
        (List.take h.digestsize (write_buf stack (h.digest inbuf).2)) = 0
    · have hl : h.digestsize ≤ (write_buf stack (h.digest inbuf).2).length := by
        simp only [write_buf, List.length_append, List.length_drop]
        omega
      simp only [h1, h2, ne_eq, not_true_eq_false, if_false, memzero]
      rw [Nat.min_eq_left hl]
      exact List.take_left' (List.length_replicate _ _)
    · simp [h1, h2] at hret
  · simp [h1] at hret

/-- C6: without a conditioner the helper makes one backend reset call with exactly the
raw input and returns its result; with a conditioner `h`, a failing hash operation makes
the helper return the hash error without any backend reset call, and a succeeding one
(which writes `digestsize` bytes) makes it call the backend reset once with exactly
those digest bytes and return the result of that call. -/
theorem C6_seed_helper_conditioning (drng : lrng_drng_info) (inbuf stack : List Nat) :
    (drng.hash_tfm = none →
      reset_calls (lrng_kcapi_drng_seed_helper drng inbuf stack).events = [inbuf] ∧
      (lrng_kcapi_drng_seed_helper drng inbuf stack).ret = drng.kcapi_rng.reset inbuf) ∧
    (∀ h, drng.hash_tfm = some h →
      ((h.digest inbuf).1 ≠ 0 →
        reset_calls (lrng_kcapi_drng_seed_helper drng inbuf stack).events = [] ∧
        (lrng_kcapi_drng_seed_helper drng inbuf stack).ret = (h.digest inbuf).1) ∧
      ((h.digest inbuf).1 = 0 → (h.digest inbuf).2.length = h.digestsize →
        reset_calls (lrng_kcapi_drng_seed_helper drng inbuf stack).events
          = [(h.digest inbuf).2] ∧
        (lrng_kcapi_drng_seed_helper drng inbuf stack).ret
          = drng.kcapi_rng.reset (h.digest inbuf).2)) := by
  refine ⟨fun hnone => ?_, fun h hsome => ⟨fun hfail => ?_, fun hok hlen => ?_⟩⟩
  · simp [lrng_kcapi_drng_seed_helper, hnone, reset_calls]
  · simp [lrng_kcapi_drng_seed_helper, hsome, hfail, reset_calls]
  · have hseed : List.take h.digestsize (write_buf stack (h.digest inbuf).2)
        = (h.digest inbuf).2 := by
      rw [← hlen]
      exact List.take_left' rfl
    unfold lrng_kcapi_drng_seed_helper
    simp only [hsome, hok, hseed, ne_eq, not_true_eq_false, if_false]
    by_cases hr : drng.kcapi_rng.reset (h.digest inbuf).2 = 0
    · simp [hr, reset_calls]
    · simp [hr, reset_calls]

/-- C6 at concrete instances: raw bytes without a conditioner, the 32 digest bytes with
one, and no backend call when the hash fails. -/
theorem C6_seed_helper_conditioning_witness :
    reset_calls (lrng_kcapi_drng_seed_helper
      { kcapi_rng := rng_refusing 0, hash_tfm := none } [5, 6, 7] []).events = [[5, 6, 7]] ∧
    (lrng_kcapi_drng_seed_helper
      { kcapi_rng := rng_refusing 0, hash_tfm := none } [5, 6, 7] []).ret = -EINVAL ∧
    reset_calls (lrng_kcapi_drng_seed_helper
      { kcapi_rng := rng_accepting 32, hash_tfm := some (hash_failing 32) } [5, 6, 7]
      (List.replicate 64 0)).events = [] ∧
    reset_calls (lrng_kcapi_drng_seed_helper
      { kcapi_rng := rng_accepting 32, hash_tfm := some (hash_working 32) } [5, 6, 7]
      (List.replicate 64 0)).events = [((hash_working 32).digest [5, 6, 7]).2] :=
  ⟨((C6_seed_helper_conditioning { kcapi_rng := rng_refusing 0, hash_tfm := none }
      [5, 6, 7] []).1 rfl).1,
   ((C6_seed_helper_conditioning { kcapi_rng := rng_refusing 0, hash_tfm := none }
      [5, 6, 7] []).1 rfl).2,
   (((C6_seed_helper_conditioning
      { kcapi_rng := rng_accepting 32, hash_tfm := some (hash_failing 32) } [5, 6, 7]
      (List.replicate 64 0)).2 (hash_failing 32) rfl).1 (by decide)).1,
   (((C6_seed_helper_conditioning
      { kcapi_rng := rng_accepting 32, hash_tfm := some (hash_working 32) } [5, 6, 7]
      (List.replicate 64 0)).2 (hash_working 32) rfl).2 (by decide) (by decide)).1⟩

/-- The seed helper allocates and frees nothing. -/
theorem seed_helper_no_resource (drng : lrng_drng_info) (inbuf stack : List Nat) (r : Res) :
    allocs (lrng_kcapi_drng_seed_helper drng inbuf stack).events r = 0 ∧
    frees (lrng_kcapi_drng_seed_helper drng inbuf stack).events r = 0 := by
  unfold lrng_kcapi_drng_seed_helper
  cases drng.hash_tfm with
  | none => simp [allocs, frees]
  | some h =>
    by_cases h1 : (h.digest inbuf).1 = 0
    · by_cases h2 : drng.kcapi_rng.reset
          (List.take h.digestsize (write_buf stack (h.digest inbuf).2)) = 0
      · simp [h1, h2, allocs, frees]
      · simp [h1, h2, allocs, frees]
    · simp [h1, allocs, frees]

/-- Counting allocations over a concatenation. -/
theorem allocs_append (a b : List KEvent) (r : Res) :
    allocs (a ++ b) r = allocs a r + allocs b r := by
  simp [allocs]

/-- Counting releases over a concatenation. -/
theorem frees_append (a b : List KEvent) (r : Res) :
    frees (a ++ b) r = frees a r + frees b r := by
  simp [frees]

/-- The exits of the bootstrap seed step: on failure the backend handle and the record
are freed, and nothing else is. -/
theorem alloc_seed_error (env : KcapiEnv) (p : Params) (info : lrng_drng_info)
    (tr : List KEvent) (herr : (alloc_seed env p info tr).ret.ok = false) (r : Res) :
    allocs (alloc_seed env p info tr).events r = allocs tr r ∧
    frees (alloc_seed env p info tr).events r
      = frees tr r + (if r = Res.shash then 0 else 1) := by
  unfold alloc_seed at herr ⊢
  have hs := seed_helper_no_resource info (time_bytes env) env.stack r
  by_cases h0 : (lrng_kcapi_drng_seed_helper info (time_bytes env) env.stack).ret = 0
  · simp [h0, AllocRet.ok] at herr
  · simp only [h0, ne_eq, not_false_eq_true, if_true]
    rw [allocs_append, allocs_append, frees_append, frees_append, hs.1, hs.2]
    cases r <;> simp [allocs, frees]

/-- Every run of `lrng_kcapi_drng_alloc` that returns an error has freed the record
and the backend handle if it allocated them; the hash handle, if allocated, has been
freed too, except in the run where the bootstrap seed call was made with the hash and
failed. -/
theorem alloc_error_cleanup (env : KcapiEnv) (p : Params)
    (herr : (lrng_kcapi_drng_alloc env p).ret.ok = false) :
    allocs (lrng_kcapi_drng_alloc env p).events Res.info
      = frees (lrng_kcapi_drng_alloc env p).events Res.info ∧
    allocs (lrng_kcapi_drng_alloc env p).events Res.rng
      = frees (lrng_kcapi_drng_alloc env p).events Res.rng ∧
    (allocs (lrng_kcapi_drng_alloc env p).events Res.shash
      = frees (lrng_kcapi_drng_alloc env p).events Res.shash ∨
     KEvent.shash_digest (time_bytes env) ∈ (lrng_kcapi_drng_alloc env p).events) := by
  unfold lrng_kcapi_drng_alloc at herr ⊢
  cases hn : p.drng_name with
  | none => simp [allocs, frees]
  | some name =>
    simp only [hn] at herr ⊢
    by_cases hd : denylisted name = true
    · simp [hd, allocs, frees]
    · by_cases hk : env.kzalloc_ok = true
      · cases hr : env.crypto_alloc_rng name with
        | error c => simp [hd, hk, hr, allocs, frees]
        | ok rng =>
          simp only [hd, hk, hr, Bool.false_eq_true, if_false, Bool.not_true] at herr ⊢
          by_cases hS : rng.seedsize = 0
          · simp only [hS, ne_eq, not_true_eq_false, if_false] at herr ⊢
            have h1 := alloc_seed_error env p _ _ herr
            refine ⟨?_, ?_, Or.inl ?_⟩
            · rw [(h1 Res.info).1, (h1 Res.info).2]
              simp [allocs, frees]
            · rw [(h1 Res.rng).1, (h1 Res.rng).2]
              simp [allocs, frees]
            · rw [(h1 Res.shash).1, (h1 Res.shash).2]
              simp [allocs, frees]
          · simp only [hS, ne_eq, not_false_eq_true, if_true] at herr ⊢
            cases hc : (match p.seed_hash with
                | some h => some h
                | none => seed_hash_for rng.seedsize) with
            | none => simp [allocs, frees]
            | some hname =>
              simp only [hc] at herr ⊢
              cases hh : env.crypto_alloc_shash hname with
              | error c => simp [allocs, frees]
              | ok hash =>
                simp only [hh] at herr ⊢
                by_cases hsd : rng.seedsize = hash.digestsize
                · simp only [hsd, ne_eq, not_true_eq_false, if_false] at herr ⊢
                  have h1 := alloc_seed_error env _ _ _ herr
                  refine ⟨?_, ?_, Or.inr ?_⟩
                  · rw [(h1 Res.info).1, (h1 Res.info).2]
                    simp [allocs, frees]
                  · rw [(h1 Res.rng).1, (h1 Res.rng).2]
                    simp [allocs, frees]
                  · have hret : (lrng_kcapi_drng_seed_helper
                        { kcapi_rng := rng, hash_tfm := some hash } (time_bytes env)
                        env.stack).ret ≠ 0 := by
                      intro h0
                      simp [alloc_seed, h0, AllocRet.ok] at herr
                    have hev : KEvent.shash_digest (time_bytes env) ∈
                        (lrng_kcapi_drng_seed_helper
                          { kcapi_rng := rng, hash_tfm := some hash } (time_bytes env)
                          env.stack).events := by
                      unfold lrng_kcapi_drng_seed_helper
                      simp only
                      split <;> [skip; split] <;> simp
                    simp only [alloc_seed, hret, ne_eq, not_false_eq_true, if_true]
                    simp [hev]
                · simp [hsd, allocs, frees]
      · simp [hd, hk, allocs, frees]

/-! ## Theorems about `lrng_numa.c` -/

/-- A successful iteration after the initial instance has been used: both allocations
of the node succeeded, and the iteration stored a fully assigned record at the address
obtained from `kmalloc_node` and that address in the node's slot. -/
theorem build_node_used (e : NumaEnv) (n : Nat) (b b1 : Build)
    (hflag : b.init_drng_used = true) (h : build_node e n b = Flow.next b1) :
    ∃ hd hh, e.drng_alloc n = Except.ok hd ∧ e.hash_alloc n = Except.ok hh ∧
      b1 = { drngs := b.drngs.set n (some (e.kmalloc_node n)),
             init_drng_used := true,
             heap := store b.heap (e.kmalloc_node n)
               (some { drng := some hd, hash := some hh, drng_cb := some e.init_drng_cb,
                       hash_cb := e.init_hash_cb, lock := true, hash_lock := true }),
             trace := b.trace ++
               [NEvent.kmalloc_node (e.kmalloc_node n) n, NEvent.drng_alloc e.init_drng_cb hd,
                NEvent.hash_alloc e.init_hash_cb hh, NEvent.mutex_init (e.kmalloc_node n),
                NEvent.rwlock_init (e.kmalloc_node n), NEvent.lrng_pool_inc_numa_node] } := by
  unfold build_node at h
  simp only [hflag, Bool.not_true, Bool.false_eq_true, if_false] at h
  cases hd : e.drng_alloc n with
  | error c => simp [hd, lrng_drng_alloc_common] at h
  | ok hdv =>
    cases hh : e.hash_alloc n with
    | error c => simp [hd, hh, lrng_drng_alloc_common] at h
    | ok hhv =>
      simp only [hd, hh, lrng_drng_alloc_common, Flow.next.injEq] at h
      refine ⟨hdv, hhv, rfl, rfl, ?_⟩
      rw [← h]
      simp

/-- The first iteration (initial instance not yet used) stores the initial instance in
the node's slot and makes no call. -/
theorem build_node_first (e : NumaEnv) (n : Nat) (b : Build)
    (hflag : b.init_drng_used = false) :
    build_node e n b = Flow.next { b with drngs := b.drngs.set n (some e.lrng_drng_init),
                                          init_drng_used := true } := by
  simp [build_node, hflag]

/-- An iteration only appends calls, and never a store to the static pointer. -/
theorem build_node_trace (e : NumaEnv) (n : Nat) (b : Build) :
    ∃ new, (build_node e n b).build.trace = b.trace ++ new ∧ stores new = 0 := by
  unfold build_node
  cases hf : b.init_drng_used with
  | false => exact ⟨[], by simp [Flow.build], rfl⟩
  | true =>
    cases hd : e.drng_alloc n with
    | error c =>
      exact ⟨_, by simp [hd, lrng_drng_alloc_common, Flow.build, List.append_assoc]; rfl,
        by simp [stores]⟩
    | ok hdv =>
      cases hh : e.hash_alloc n with
      | error c =>
        exact ⟨_, by simp [hd, hh, lrng_drng_alloc_common, Flow.build, List.append_assoc]; rfl,
          by simp [stores]⟩
      | ok hhv =>
        exact ⟨_, by simp [hd, hh, lrng_drng_alloc_common, Flow.build, List.append_assoc]; rfl,
          by simp [stores]⟩

/-- Counting stores over a concatenation. -/
theorem stores_append (a b : List NEvent) : stores (a ++ b) = stores a + stores b := by
  simp [stores]

/-- The build loop only appends calls, and never a store to the static pointer. -/
theorem build_loop_trace (e : NumaEnv) (ns : List Nat) (b : Build) :
    ∃ new, (build_loop e ns b).build.trace = b.trace ++ new ∧ stores new = 0 := by
  induction ns generalizing b with
  | nil => exact ⟨[], by simp [build_loop, Flow.build], rfl⟩
  | cons n rest ih =>
    obtain ⟨new1, h1, s1⟩ := build_node_trace e n b
    cases hb : build_node e n b with
    | goto_err b1 =>
      rw [hb] at h1
      exact ⟨new1, by simpa [build_loop, hb, Flow.build] using h1, s1⟩
    | next b1 =>
      rw [hb] at h1
      obtain ⟨new2, h2, s2⟩ := ih b1
      refine ⟨new1 ++ new2, ?_, ?_⟩
      · simp only [build_loop, hb]
        rw [h2]
        simp only [Flow.build] at h1
        rw [h1, List.append_assoc]
      · rw [stores_append, s1, s2]

/-- The rollback loop only appends calls, and never a store to the static pointer. -/
theorem rollback_loop_trace (e : NumaEnv) (drngs : List (Option Ptr)) (ns : List Nat)
    (s s1 : (Ptr → Option lrng_drng) × List NEvent)
    (h : rollback_loop e drngs ns s = some s1) :
    ∃ new, s1.2 = s.2 ++ new ∧ stores new = 0 := by
  induction ns generalizing s with
  | nil =>
    simp only [rollback_loop, Option.some.injEq] at h
    exact ⟨[], by simp [h], rfl⟩
  | cons n rest ih =>
    simp only [rollback_loop] at h
    by_cases hinit : drngs.getD n none = some e.lrng_drng_init
    · rw [if_pos hinit] at h
      exact ih s h
    · rw [if_neg hinit] at h
      cases hslot : drngs.getD n none with
      | none =>
        simp only [hslot] at h
        exact ih s h
      | some p =>
        simp only [hslot] at h
        cases hrec : s.1 p with
        | none => simp [hrec] at h
        | some d =>
          simp only [hrec] at h
          obtain ⟨new, hn, sn⟩ := ih _ h
          refine ⟨[NEvent.hash_dealloc d.hash_cb d.hash,
            NEvent.drng_dealloc d.drng_cb d.drng, NEvent.kfree p] ++ new, ?_, ?_⟩
          · rw [hn, List.append_assoc]
          · rw [stores_append, sn]
            simp [stores]

/-- The code at label `err` leaves the static pointer alone and stores nothing. -/
theorem err_path_result (e : NumaEnv) (published drngs : Option (List (Option Ptr)))
    (heap : Ptr → Option lrng_drng) (trace : List NEvent) (k1 : Kernel) (tr : List NEvent)
    (h : err_path e published drngs heap trace = some (k1, tr)) :
    k1.lrng_drng = published ∧ ∃ new, tr = trace ++ new ∧ stores new = 0 := by
  unfold err_path at h
  cases drngs with
  | none => simp at h
  | some arr =>
    simp only at h
    cases hr : rollback_loop e arr (for_each_online_node e) (heap, trace) with
    | none => simp [hr] at h
    | some s1 =>
      obtain ⟨new, hn, sn⟩ := rollback_loop_trace e arr _ _ s1 hr
      simp only [hr, Option.some.injEq, Prod.mk.injEq] at h
      obtain ⟨hk, ht⟩ := h
      refine ⟨by rw [← hk], new ++ [NEvent.kfree_drngs, NEvent.mutex_unlock], ?_, ?_⟩
      · rw [← ht, hn, List.append_assoc]
      · rw [stores_append, sn]
        simp [stores]

/-- A run that finds the array published returns at once: the memory is unchanged and
the only calls are taking and releasing the mutex. -/
theorem run_published (e : NumaEnv) (k : Kernel) (arr : List (Option Ptr))
    (h : k.lrng_drng = some arr) :
    _lrng_drngs_numa_alloc e k = some (k, [NEvent.mutex_lock, NEvent.mutex_unlock]) := by
  simp [_lrng_drngs_numa_alloc, h]

/-- A run that finds the pointer unset either leaves it unset and stores nothing, or
stores the array it built, once, after allocating that array. -/
theorem run_unpublished (e : NumaEnv) (k k1 : Kernel) (tr : List NEvent)
    (hun : k.lrng_drng = none) (h : _lrng_drngs_numa_alloc e k = some (k1, tr)) :
    (k1.lrng_drng = none ∧ stores tr = 0) ∨
    (∃ b, build_loop e (for_each_online_node e)
        { drngs := List.replicate e.nr_node_ids none, init_drng_used := false,
          heap := k.heap, trace := [NEvent.mutex_lock, NEvent.kcalloc e.nr_node_ids] }
        = Flow.next b ∧ e.lrng_drng_initalize = 0 ∧
      k1.lrng_drng = some b.drngs ∧ k1.heap = b.heap ∧ stores tr = 1 ∧
      tr = b.trace ++ [NEvent.cmpxchg_stored, NEvent.lrng_pool_all_numa_nodes_seeded false,
                       NEvent.mutex_unlock]) := by
  unfold _lrng_drngs_numa_alloc at h
  simp only [hun] at h
  by_cases hi : e.lrng_drng_initalize = 0
  · simp only [hi, ne_eq, not_true_eq_false, if_false] at h
    cases hb : build_loop e (for_each_online_node e)
        { drngs := List.replicate e.nr_node_ids none, init_drng_used := false,
          heap := k.heap, trace := [NEvent.mutex_lock, NEvent.kcalloc e.nr_node_ids] } with
    | next b =>
      right
      simp only [hb, Option.some.injEq, Prod.mk.injEq] at h
      obtain ⟨hk, ht⟩ := h
      obtain ⟨new, hn, sn⟩ := build_loop_trace e (for_each_online_node e)
        { drngs := List.replicate e.nr_node_ids none, init_drng_used := false,
          heap := k.heap, trace := [NEvent.mutex_lock, NEvent.kcalloc e.nr_node_ids] }
      rw [hb] at hn
      simp only [Flow.build] at hn
      refine ⟨b, rfl, hi, by rw [← hk], by rw [← hk], ?_, ht.symm⟩
      rw [← ht, hn, stores_append, stores_append, sn]
      simp [stores]
    | goto_err b =>
      left
      simp only [hb] at h
      obtain ⟨hp, new, hn, sn⟩ := err_path_result e none _ _ _ k1 tr h
      obtain ⟨new0, hn0, sn0⟩ := build_loop_trace e (for_each_online_node e)
        { drngs := List.replicate e.nr_node_ids none, init_drng_used := false,
          heap := k.heap, trace := [NEvent.mutex_lock, NEvent.kcalloc e.nr_node_ids] }
      rw [hb] at hn0
      simp only [Flow.build] at hn0
      refine ⟨hp, ?_⟩
      rw [hn, hn0, stores_append, stores_append, sn, sn0]
      simp [stores]
  · simp only [hi, ne_eq, not_false_eq_true, if_true] at h
    simp [err_path] at h

/-- Reading a slot after a write to the array. -/
theorem getD_set_slot (l : List (Option Ptr)) (n i : Nat) (v : Option Ptr) :
    (l.set n v).getD i none = if i = n ∧ n < l.length then v else l.getD i none := by
  by_cases hi : i = n
  · subst hi
    by_cases hl : i < l.length
    · simp [List.getD_eq_getElem?_getD, List.getElem?_set, hl]
    · have hl2 : l.length ≤ i := Nat.le_of_not_lt hl
      simp [List.getD_eq_getElem?_getD, List.getElem?_set, hl, List.getElem?_eq_none hl2]
  · have hne : ¬ n = i := fun h => hi h.symm
    simp [List.getD_eq_getElem?_getD, List.getElem?_set, hi, hne]

/-- Reading memory after a store. -/
theorem store_apply (heap : Ptr → Option lrng_drng) (p q : Ptr) (v : Option lrng_drng) :
    store heap p v q = if q = p then v else heap q := rfl

/-- Slots after a successful pass of the build loop that started with the initial
instance already used: the array keeps its length, every visited node id inside the
array holds the address obtained for it, and every other slot is untouched. -/
theorem build_loop_used_slots (e : NumaEnv) (ns : List Nat) (b b1 : Build)
    (hflag : b.init_drng_used = true) (h : build_loop e ns b = Flow.next b1) :
    b1.drngs.length = b.drngs.length ∧
    (∀ i, i ∈ ns → i < b.drngs.length → b1.drngs.getD i none = some (e.kmalloc_node i)) ∧
    (∀ i, i ∉ ns → b1.drngs.getD i none = b.drngs.getD i none) := by
  induction ns generalizing b with
  | nil =>
    simp only [build_loop, Flow.next.injEq] at h
    subst h
    simp
  | cons n rest ih =>
    simp only [build_loop] at h
    cases hb : build_node e n b with
    | goto_err b2 => simp [hb] at h
    | next b2 =>
      simp only [hb] at h
      obtain ⟨hd, hh, _, _, hb2⟩ := build_node_used e n b b2 hflag hb
      have hflag2 : b2.init_drng_used = true := by rw [hb2]
      obtain ⟨hlen, hin, hout⟩ := ih b2 hflag2 h
      have hd2 : b2.drngs = b.drngs.set n (some (e.kmalloc_node n)) := by rw [hb2]
      have hlen2 : b2.drngs.length = b.drngs.length := by rw [hd2, List.length_set]
      refine ⟨hlen.trans hlen2, ?_, ?_⟩
      · intro i hi hil
        by_cases hir : i ∈ rest
        · exact hin i hir (by rw [hlen2]; exact hil)
        · have hieq : i = n := by
            rcases List.mem_cons.mp hi with h1 | h1
            · exact h1
            · exact absurd h1 hir
          rw [hout i hir, hd2, getD_set_slot]
          subst hieq
          simp [hil]
      · intro i hi
        have hne : i ≠ n := fun h1 => hi (h1 ▸ List.mem_cons_self _ _)
        have hir : i ∉ rest := fun h1 => hi (List.mem_cons_of_mem _ h1)
        rw [hout i hir, hd2, getD_set_slot]
        simp [hne]

/-- Memory after a successful pass of the build loop that started with the initial
instance already used: every address obtained for a visited node holds a constructed
record, and every other address is untouched. -/
theorem build_loop_used_heap (e : NumaEnv) (ns : List Nat) (b b1 : Build)
    (hflag : b.init_drng_used = true) (h : build_loop e ns b = Flow.next b1) :
    (∀ n, n ∈ ns → ∃ d, b1.heap (e.kmalloc_node n) = some d ∧ constructed e d) ∧
    (∀ p, (∀ n, n ∈ ns → p ≠ e.kmalloc_node n) → b1.heap p = b.heap p) := by
  induction ns generalizing b with
  | nil =>
    simp only [build_loop, Flow.next.injEq] at h
    subst h
    simp
  | cons n rest ih =>
    simp only [build_loop] at h
    cases hb : build_node e n b with
    | goto_err b2 => simp [hb] at h
    | next b2 =>
      simp only [hb] at h
      obtain ⟨hd, hh, _, _, hb2⟩ := build_node_used e n b b2 hflag hb
      have hflag2 : b2.init_drng_used = true := by rw [hb2]
      obtain ⟨hin, hout⟩ := ih b2 hflag2 h
      have hh2 : b2.heap = store b.heap (e.kmalloc_node n)
          (some { drng := some hd, hash := some hh, drng_cb := some e.init_drng_cb,
                  hash_cb := e.init_hash_cb, lock := true, hash_lock := true }) := by
        rw [hb2]
      refine ⟨?_, ?_⟩
      · intro m hm
        by_cases hex : ∃ m1, m1 ∈ rest ∧ e.kmalloc_node m = e.kmalloc_node m1
        · obtain ⟨m1, hm1, heq⟩ := hex
          rw [heq]
          exact hin m1 hm1
        · have hnot : ∀ m1, m1 ∈ rest → e.kmalloc_node m ≠ e.kmalloc_node m1 :=
            fun m1 hm1 heq => hex ⟨m1, hm1, heq⟩
          have hmeq : m = n := by
            rcases List.mem_cons.mp hm with h1 | h1
            · exact h1
            · exact absurd rfl (hnot m h1)
          rw [hout _ hnot, hh2, store_apply, hmeq]
          exact ⟨_, if_pos rfl, rfl, rfl, rfl, rfl, rfl, rfl⟩
      · intro p hp
        have hpn : p ≠ e.kmalloc_node n := hp n (List.mem_cons_self _ _)
        rw [hout p (fun m hm => hp m (List.mem_cons_of_mem _ hm)), hh2, store_apply,
          if_neg hpn]

/-- The record of a visited node whose address no other visited node shares: its
handles are the ones the two allocations for that node returned, its descriptors those
of the initial instance. -/
theorem build_loop_used_record (e : NumaEnv) (ns : List Nat) (b b1 : Build)
    (hflag : b.init_drng_used = true) (h : build_loop e ns b = Flow.next b1)
    (n : Nat) (hn : n ∈ ns)
    (hfresh : ∀ m, m ∈ ns → m ≠ n → e.kmalloc_node m ≠ e.kmalloc_node n) :
    ∃ hd hh, e.drng_alloc n = Except.ok hd ∧ e.hash_alloc n = Except.ok hh ∧
      b1.heap (e.kmalloc_node n)
        = some { drng := some hd, hash := some hh, drng_cb := some e.init_drng_cb,
                 hash_cb := e.init_hash_cb, lock := true, hash_lock := true } := by
  induction ns generalizing b with
  | nil => simp at hn
  | cons n0 rest ih =>
    simp only [build_loop] at h
    cases hb : build_node e n0 b with
    | goto_err b2 => simp [hb] at h
    | next b2 =>
      simp only [hb] at h
      obtain ⟨hd, hh, hdo, hho, hb2⟩ := build_node_used e n0 b b2 hflag hb
      have hflag2 : b2.init_drng_used = true := by rw [hb2]
      by_cases hr : n ∈ rest
      · exact ih b2 hflag2 h hr (fun m hm => hfresh m (List.mem_cons_of_mem _ hm))
      · have hneq : n = n0 := by
          rcases List.mem_cons.mp hn with h1 | h1
          · exact h1
          · exact absurd h1 hr
        subst hneq
        refine ⟨hd, hh, hdo, hho, ?_⟩
        have hout := (build_loop_used_heap e rest b2 b1 hflag2 h).2 (e.kmalloc_node n)
          (fun m hm => fun heq => hfresh m (List.mem_cons_of_mem _ hm)
            (fun hmn => hr (hmn ▸ hm)) heq.symm)
        rw [hout, hb2]
        simp [store_apply]

/-- The `kmalloc_node` calls of a successful pass of the build loop that started with
the initial instance already used: one for each visited node, none for any other. -/
theorem build_loop_used_kmalloc (e : NumaEnv) (ns : List Nat) (b b1 : Build)
    (hflag : b.init_drng_used = true) (h : build_loop e ns b = Flow.next b1) :
    (∀ n, n ∈ ns → NEvent.kmalloc_node (e.kmalloc_node n) n ∈ b1.trace) ∧
    (∀ p m, NEvent.kmalloc_node p m ∈ b1.trace →
      NEvent.kmalloc_node p m ∈ b.trace ∨ m ∈ ns) ∧
    (∀ ev, ev ∈ b.trace → ev ∈ b1.trace) := by
  induction ns generalizing b with
  | nil =>
    simp only [build_loop, Flow.next.injEq] at h
    subst h
    simp
  | cons n rest ih =>
    simp only [build_loop] at h
    cases hb : build_node e n b with
    | goto_err b2 => simp [hb] at h
    | next b2 =>
      simp only [hb] at h
      obtain ⟨hd, hh, _, _, hb2⟩ := build_node_used e n b b2 hflag hb
      have hflag2 : b2.init_drng_used = true := by rw [hb2]
      obtain ⟨hin, hout, hkeep⟩ := ih b2 hflag2 h
      have ht2 : b2.trace = b.trace ++
          [NEvent.kmalloc_node (e.kmalloc_node n) n, NEvent.drng_alloc e.init_drng_cb hd,
           NEvent.hash_alloc e.init_hash_cb hh, NEvent.mutex_init (e.kmalloc_node n),
           NEvent.rwlock_init (e.kmalloc_node n), NEvent.lrng_pool_inc_numa_node] := by
        rw [hb2]
      refine ⟨?_, ?_, ?_⟩
      · intro m hm
        rcases List.mem_cons.mp hm with h1 | h1
        · subst h1
          apply hkeep
          rw [ht2]
          simp
        · exact hin m h1
      · intro p m hpm
        rcases hout p m hpm with h1 | h1
        · rw [ht2] at h1
          simp only [List.mem_append, List.mem_cons, NEvent.kmalloc_node.injEq,
            List.mem_singleton, reduceCtorEq, or_false, List.not_mem_nil] at h1
          rcases h1 with h2 | h2
          · exact Or.inl h2
          · exact Or.inr (h2.2 ▸ List.mem_cons_self _ _)
        · exact Or.inr (List.mem_cons_of_mem _ h1)
      · intro ev hev
        apply hkeep
        rw [ht2]
        exact List.mem_append_left _ hev

/-- The visited node ids are the online ones below `nr_node_ids`. -/
theorem mem_for_each_online_node (e : NumaEnv) (n : Nat) :
    n ∈ for_each_online_node e ↔ n < e.nr_node_ids ∧ e.node_online n = true := by
  simp [for_each_online_node, List.mem_filter, List.mem_range]

/-- The node ids are visited in strictly ascending order. -/
theorem for_each_online_node_sorted (e : NumaEnv) :
    (for_each_online_node e).Pairwise (fun a b => a < b) :=
  List.Pairwise.filter _ (List.pairwise_lt_range _)

/-- The first visited node is the lowest online one, and is not visited again. -/
theorem first_online_lowest (e : NumaEnv) (first : Nat) (rest : List Nat)
    (h : for_each_online_node e = first :: rest) :
    first ∉ rest ∧ first < e.nr_node_ids ∧ e.node_online first = true ∧
    (∀ n, n ∈ rest → first < n ∧ n < e.nr_node_ids ∧ e.node_online n = true) ∧
    (∀ n, n < e.nr_node_ids → e.node_online n = true → n = first ∨ n ∈ rest) := by
  have hs := for_each_online_node_sorted e
  rw [h] at hs
  have hlt := (List.pairwise_cons.mp hs).1
  have hmem : ∀ n, n ∈ first :: rest ↔ n < e.nr_node_ids ∧ e.node_online n = true := by
    intro n
    rw [← h]
    exact mem_for_each_online_node e n
  have hf := (hmem first).mp (List.mem_cons_self _ _)
  refine ⟨fun hin => Nat.lt_irrefl _ (hlt first hin), hf.1, hf.2, ?_, ?_⟩
  · intro n hn
    have := (hmem n).mp (List.mem_cons_of_mem _ hn)
    exact ⟨hlt n hn, this.1, this.2⟩
  · intro n h1 h2
    exact List.mem_cons.mp ((hmem n).mpr ⟨h1, h2⟩)

/-- Every slot of the array as `kcalloc` returns it is NULL. -/
theorem getD_replicate_none (n i : Nat) :
    (List.replicate n (none : Option Ptr)).getD i none = none := by
  by_cases h : i < n
  · simp [List.getD_eq_getElem?_getD, List.getElem?_replicate, h]
  · simp [List.getD_eq_getElem?_getD, List.getElem?_replicate, h]

/-- The first iteration of the build loop stores the initial instance and continues
with the remaining nodes. -/
theorem build_loop_start (e : NumaEnv) (first : Nat) (rest : List Nat) (b : Build)
    (hflag : b.init_drng_used = false) :
    build_loop e (first :: rest) b
      = build_loop e rest { b with drngs := b.drngs.set first (some e.lrng_drng_init),
                                   init_drng_used := true } := by
  simp [build_loop, build_node_first e first b hflag]

/-- The array and the memory after a run that found the pointer unset and published:
`lrng_drng_initalize` had returned zero; the array has `nr_node_ids` slots; the slot of
a node that is not visited is NULL; the slot of the first visited node holds the initial
instance, for which no `kmalloc_node` call was made; the slot of every other visited
node holds the address `kmalloc_node` returned for that node, where a constructed
record lives. -/
theorem run_success_slots (e : NumaEnv) (k k1 : Kernel) (tr : List NEvent)
    (arr : List (Option Ptr)) (hun : k.lrng_drng = none)
    (h : _lrng_drngs_numa_alloc e k = some (k1, tr)) (hpub : k1.lrng_drng = some arr) :
    e.lrng_drng_initalize = 0 ∧ arr.length = e.nr_node_ids ∧
    (∀ i, i ∉ for_each_online_node e → arr.getD i none = none) ∧
    (∀ first rest, for_each_online_node e = first :: rest →
      arr.getD first none = some e.lrng_drng_init ∧
      (∀ p, NEvent.kmalloc_node p first ∉ tr) ∧
      (∀ n, n ∈ rest →
        arr.getD n none = some (e.kmalloc_node n) ∧
        NEvent.kmalloc_node (e.kmalloc_node n) n ∈ tr ∧
        (∃ d, k1.heap (e.kmalloc_node n) = some d ∧ constructed e d) ∧
        ((∀ m, m ∈ rest → m ≠ n → e.kmalloc_node m ≠ e.kmalloc_node n) →
          ∃ hd hh, e.drng_alloc n = Except.ok hd ∧ e.hash_alloc n = Except.ok hh ∧
            k1.heap (e.kmalloc_node n)
              = some { drng := some hd, hash := some hh, drng_cb := some e.init_drng_cb,
                       hash_cb := e.init_hash_cb, lock := true, hash_lock := true }))) := by
  rcases run_unpublished e k k1 tr hun h with ⟨hnone, _⟩ | ⟨b, hb, hi, hk, hheap, _, htr⟩
  · rw [hnone] at hpub
    exact absurd hpub (by simp)
  · have harr : arr = b.drngs := by
      rw [hk] at hpub
      exact (Option.some.inj hpub).symm
    cases hnodes : for_each_online_node e with
    | nil =>
      rw [hnodes] at hb
      simp only [build_loop, Flow.next.injEq] at hb
      refine ⟨hi, ?_, ?_, ?_⟩
      · rw [harr, ← hb]
        simp
      · intro i _
        rw [harr, ← hb]
        exact getD_replicate_none _ _
      · intro first rest hfr
        exact absurd hfr (by simp)
    | cons first rest =>
      obtain ⟨hnot, hfirst, _, hrest, _⟩ := first_online_lowest e first rest hnodes
      rw [hnodes, build_loop_start e first rest _ rfl] at hb
      obtain ⟨hlen, hin, hout⟩ := build_loop_used_slots e rest _ b rfl hb
      obtain ⟨hheapin, _⟩ := build_loop_used_heap e rest _ b rfl hb
      obtain ⟨hkin, hkout, _⟩ := build_loop_used_kmalloc e rest _ b rfl hb
      simp only [List.length_set, List.length_replicate] at hlen hin
      refine ⟨hi, by rw [harr, hlen], ?_, ?_⟩
      · intro i hi2
        have hne : i ≠ first := fun h1 => hi2 (h1 ▸ List.mem_cons_self _ _)
        have hir : i ∉ rest := fun h1 => hi2 (List.mem_cons_of_mem _ h1)
        rw [harr, hout i hir, getD_set_slot]
        simp only [hne, false_and, if_false]
        exact getD_replicate_none _ _
      · intro first1 rest1 hfr
        obtain ⟨hf1, hr1⟩ := List.cons.inj hfr
        subst hf1
        subst hr1
        refine ⟨?_, ?_, ?_⟩
        · rw [harr, hout first hnot, getD_set_slot]
          simp [hfirst]
        · intro p hp
          rw [htr] at hp
          simp only [List.mem_append, List.mem_cons, reduceCtorEq, List.mem_singleton,
            or_self, or_false, List.not_mem_nil] at hp
          rcases hkout p first hp with h1 | h1
          · simp at h1
          · exact hnot h1
        · intro n hn
          refine ⟨?_, ?_, ?_, ?_⟩
          · rw [harr]
            exact hin n hn (hrest n hn).2.1
          · rw [htr]
            exact List.mem_append_left _ (hkin n hn)
          · rw [hheap]
            exact hheapin n hn
          · intro hfresh
            rw [hheap]
            exact build_loop_used_record e rest _ b rfl hb n hn hfresh

/-- A trace made of mutex calls only contains no store. -/
theorem stores_mutex_only (tr : List NEvent)
    (h : ∀ ev, ev ∈ tr → ev = NEvent.mutex_lock ∨ ev = NEvent.mutex_unlock) :
    stores tr = 0 := by
  unfold stores
  rw [List.count_eq_zero]
  intro hin
  rcases h _ hin with h1 | h1 <;> exact absurd h1 (by simp)

/-- Once the pointer is set, any sequence of runs leaves the memory as it is and only
takes and releases the mutex. -/
theorem runs_published (es : List NumaEnv) (k : Kernel) (arr : List (Option Ptr))
    (h : k.lrng_drng = some arr) :
    ∃ tr, runs es k = some (k, tr) ∧
      ∀ ev, ev ∈ tr → ev = NEvent.mutex_lock ∨ ev = NEvent.mutex_unlock := by
  induction es with
  | nil => exact ⟨[], rfl, by simp⟩
  | cons e es ih =>
    obtain ⟨tr2, h2, hev⟩ := ih
    refine ⟨[NEvent.mutex_lock, NEvent.mutex_unlock] ++ tr2, ?_, ?_⟩
    · simp [runs, run_published e k arr h, h2]
    · intro ev hin
      rcases List.mem_append.mp hin with h1 | h1
      · simpa using h1
      · exact hev ev h1

/-- Splitting a sequence of runs at its first run. -/
theorem runs_cons (e : NumaEnv) (es : List NumaEnv) (k k2 : Kernel) (tr : List NEvent)
    (h : runs (e :: es) k = some (k2, tr)) :
    ∃ k1 tr1 tr2, _lrng_drngs_numa_alloc e k = some (k1, tr1) ∧
      runs es k1 = some (k2, tr2) ∧ tr = tr1 ++ tr2 := by
  simp only [runs] at h
  cases h1 : _lrng_drngs_numa_alloc e k with
  | none => simp [h1] at h
  | some r1 =>
    obtain ⟨k1, tr1⟩ := r1
    simp only [h1] at h
    cases h2 : runs es k1 with
    | none => simp [h2] at h
    | some r2 =>
      obtain ⟨k3, tr2⟩ := r2
      simp only [h2, Option.some.injEq, Prod.mk.injEq] at h
      exact ⟨k1, tr1, tr2, rfl, by rw [← h.1]; exact h2, h.2.symm⟩

/-- The array allocation is among the calls of a run that publishes. -/
theorem run_success_kcalloc (e : NumaEnv) (k k1 : Kernel) (tr : List NEvent)
    (arr : List (Option Ptr)) (hun : k.lrng_drng = none)
    (h : _lrng_drngs_numa_alloc e k = some (k1, tr)) (hpub : k1.lrng_drng = some arr) :
    NEvent.kcalloc e.nr_node_ids ∈ tr ∧ stores tr = 1 := by
  rcases run_unpublished e k k1 tr hun h with ⟨hnone, _⟩ | ⟨b, hb, _, _, _, hs, htr⟩
  · rw [hnone] at hpub
    exact absurd hpub (by simp)
  · obtain ⟨new, hn, _⟩ := build_loop_trace e (for_each_online_node e)
      { drngs := List.replicate e.nr_node_ids none, init_drng_used := false,
        heap := k.heap, trace := [NEvent.mutex_lock, NEvent.kcalloc e.nr_node_ids] }
    rw [hb] at hn
    simp only [Flow.build] at hn
    refine ⟨?_, hs⟩
    rw [htr, hn]
    simp

/-- Over any sequence of runs the static pointer is stored at most once, and a change
of the pointer is a single store, from unset, of an array allocated in one of the
runs. -/
theorem runs_store_once (es : List NumaEnv) (k k1 : Kernel) (tr : List NEvent)
    (h : runs es k = some (k1, tr)) :
    stores tr ≤ 1 ∧
    (k1.lrng_drng ≠ k.lrng_drng →
      k.lrng_drng = none ∧ stores tr = 1 ∧
      ∃ e, e ∈ es ∧ ∃ arr, k1.lrng_drng = some arr ∧ arr.length = e.nr_node_ids ∧
        NEvent.kcalloc e.nr_node_ids ∈ tr) := by
  induction es generalizing k tr with
  | nil =>
    simp only [runs, Option.some.injEq, Prod.mk.injEq] at h
    obtain ⟨hk, ht⟩ := h
    subst hk
    subst ht
    exact ⟨by simp [stores], fun hne => absurd rfl hne⟩
  | cons e es ih =>
    obtain ⟨k0, tr1, tr2, hrun, hrest, htr⟩ := runs_cons e es k k1 tr h
    cases hp : k.lrng_drng with
    | some arr0 =>
      have h1 := run_published e k arr0 hp
      rw [h1] at hrun
      simp only [Option.some.injEq, Prod.mk.injEq] at hrun
      obtain ⟨hk0, ht1⟩ := hrun
      subst hk0
      obtain ⟨tr3, h3, hev⟩ := runs_published es k arr0 hp
      rw [h3] at hrest
      simp only [Option.some.injEq, Prod.mk.injEq] at hrest
      obtain ⟨hk1, ht2⟩ := hrest
      subst hk1
      have hs : stores tr = 0 := by
        rw [htr, stores_append, ← ht2, stores_mutex_only tr3 hev, ← ht1]
        simp [stores]
      exact ⟨by omega, fun hne => absurd hp hne⟩
    | none =>
      rcases run_unpublished e k k0 tr1 hp hrun with ⟨hnone, hs1⟩ | ⟨b, _, _, hk0, _, hs1, _⟩
      · obtain ⟨ih1, ih2⟩ := ih k0 tr2 hrest
        refine ⟨by rw [htr, stores_append, hs1]; omega, fun hne => ?_⟩
        have hne0 : k1.lrng_drng ≠ k0.lrng_drng := by rw [hnone]; exact hne
        obtain ⟨_, hs2, e1, he1, arr, ha, hl, hc⟩ := ih2 hne0
        refine ⟨rfl, by rw [htr, stores_append, hs1, hs2], e1, List.mem_cons_of_mem _ he1,
          arr, ha, hl, ?_⟩
        rw [htr]
        exact List.mem_append_right _ hc
      · obtain ⟨tr3, h3, hev⟩ := runs_published es k0 b.drngs hk0
        rw [h3] at hrest
        simp only [Option.some.injEq, Prod.mk.injEq] at hrest
        obtain ⟨hk1, ht2⟩ := hrest
        have hs2 : stores tr2 = 0 := by rw [← ht2]; exact stores_mutex_only tr3 hev
        have hslots := run_success_slots e k k0 tr1 b.drngs hp hrun hk0
        have hkc := run_success_kcalloc e k k0 tr1 b.drngs hp hrun hk0
        refine ⟨by rw [htr, stores_append, hs1, hs2], fun _ => ?_⟩
        refine ⟨rfl, by rw [htr, stores_append, hs1, hs2], e, List.mem_cons_self _ _,
          b.drngs, by rw [← hk1]; exact hk0, hslots.2.1, ?_⟩
        rw [htr]
        exact List.mem_append_left _ hkc.1

/-- Write-once publication on the runs that have a defined result.  For every sequence
of runs of `_lrng_drngs_numa_alloc` (each with its own outcome of the allocations): when
the pointer `lrng_drng` is already set, every run of the sequence returns, the memory
(the pointer, every slot of the array, the instance records) is unchanged and the only
calls are taking and releasing the mutex, so nothing is allocated; and when the
sequence has a defined result, the pointer is stored at most once over the whole
sequence, and if it changed at all, it was unset before and was stored once, with an
array that one of the runs allocated with `nr_node_ids` slots.  A sequence containing a
run that finds the pointer unset while `lrng_drng_initalize` fails has no defined
result (`run_initalize_failure`) and is not covered. -/
theorem write_once_on_defined_runs (es : List NumaEnv) (k : Kernel) :
    (∀ arr, k.lrng_drng = some arr →
      ∃ tr, runs es k = some (k, tr) ∧
        ∀ ev, ev ∈ tr → ev = NEvent.mutex_lock ∨ ev = NEvent.mutex_unlock) ∧
    (∀ k1 tr, runs es k = some (k1, tr) →
      stores tr ≤ 1 ∧
      (k1.lrng_drng ≠ k.lrng_drng →
        k.lrng_drng = none ∧ stores tr = 1 ∧
        ∃ e, e ∈ es ∧ ∃ arr, k1.lrng_drng = some arr ∧ arr.length = e.nr_node_ids ∧
          NEvent.kcalloc e.nr_node_ids ∈ tr)) :=
  ⟨fun arr h => runs_published es k arr h, fun k1 tr h => runs_store_once es k k1 tr h⟩

/-- The write-once statement at a concrete sequence: a run that fails at node 2 of
four, a run that publishes an array for two nodes, and a further run; the pointer is
stored once.  And from a memory with the pointer set, the same three runs change
nothing. -/
theorem write_once_on_defined_runs_example :
    (∃ k1 tr,
      runs [sample_env 4 [0, 1, 2, 3] [2] [] 0, sample_env 2 [0, 1] [] [] 0,
            sample_env 2 [0, 1] [] [] (-EINVAL)] boot = some (k1, tr) ∧
      stores tr ≤ 1) ∧
    (∃ tr,
      runs [sample_env 4 [0, 1, 2, 3] [2] [] 0, sample_env 2 [0, 1] [] [] 0,
            sample_env 2 [0, 1] [] [] (-EINVAL)]
        { heap := fun _ => none, lrng_drng := some [some 1000, none] }
        = some ({ heap := fun _ => none, lrng_drng := some [some 1000, none] }, tr) ∧
      ∀ ev, ev ∈ tr → ev = NEvent.mutex_lock ∨ ev = NEvent.mutex_unlock) := by
  constructor
  · have hsome : (runs [sample_env 4 [0, 1, 2, 3] [2] [] 0, sample_env 2 [0, 1] [] [] 0,
        sample_env 2 [0, 1] [] [] (-EINVAL)] boot).isSome = true := by decide
    obtain ⟨r, hr⟩ := Option.isSome_iff_exists.mp hsome
    exact ⟨r.1, r.2, hr, ((write_once_on_defined_runs _ boot).2 r.1 r.2 hr).1⟩
  · exact (write_once_on_defined_runs _ _).1 [some 1000, none] rfl

/-- A run that finds the pointer unset while `lrng_drng_initalize` fails jumps to the
label `err` before the local `drngs` has a value; the rollback loop then reads that
variable, so the run has no defined result. -/
theorem run_initalize_failure (e : NumaEnv) (k : Kernel) (hun : k.lrng_drng = none)
    (hfail : e.lrng_drng_initalize ≠ 0) : _lrng_drngs_numa_alloc e k = none := by
  simp [_lrng_drngs_numa_alloc, hun, hfail, err_path]

/-- C8 (evaluation): with the pointer unset, two online nodes and
`lrng_drng_initalize` returning `-EINVAL`, the run reaches the rollback loop with the
local `drngs` never assigned: it has no defined result, instead of returning with
nothing destroyed. -/
theorem C8_initalize_failure_reads_unassigned_drngs :
    (_lrng_drngs_numa_alloc (sample_env 2 [0, 1] [] [] (-EINVAL)) boot).isNone = true ∧
    err_path (sample_env 2 [0, 1] [] [] (-EINVAL)) none none boot.heap [NEvent.mutex_lock]
      = none := by
  constructor
  · decide
  · rfl

/-- C9 (as stated) fails: with `nr_node_ids = 2` and only node 0 online, the run
publishes an array whose slot 1 is NULL. -/
theorem C9_offline_slot_null :
    (sample_env 2 [0] [] [] 0).nr_node_ids = 2 ∧
    (_lrng_drngs_numa_alloc (sample_env 2 [0] [] [] 0) boot).map
      (fun r => lrng_drng_instances r.1) = some (some [some 1000, none]) ∧
    (_lrng_drngs_numa_alloc (sample_env 2 [0] [] [] 0) boot).map
      (fun r => (lrng_drng_instances r.1).map (fun arr => arr.getD 1 none))
      = some (some none) := by
  decide

/-- Slots after one publishing run: a slot of an online node holds the initial instance
or the address of a constructed record; a slot of a node that is not online is NULL. -/
theorem run_success_valid (e : NumaEnv) (k k1 : Kernel) (tr : List NEvent)
    (arr : List (Option Ptr)) (hun : k.lrng_drng = none)
    (h : _lrng_drngs_numa_alloc e k = some (k1, tr)) (hpub : k1.lrng_drng = some arr)
    (n : Nat) (hn : n < e.nr_node_ids) :
    (e.node_online n = true → ∃ p, arr.getD n none = some p ∧
      (p = e.lrng_drng_init ∨ ∃ d, k1.heap p = some d ∧ constructed e d)) ∧
    (e.node_online n = false → arr.getD n none = none) := by
  obtain ⟨_, _, hoff, hon⟩ := run_success_slots e k k1 tr arr hun h hpub
  constructor
  · intro hnon
    cases hnodes : for_each_online_node e with
    | nil =>
      have := (mem_for_each_online_node e n).mpr ⟨hn, hnon⟩
      rw [hnodes] at this
      exact absurd this (by simp)
    | cons first rest =>
      obtain ⟨hfirst, _, hrest⟩ := hon first rest hnodes
      rcases (first_online_lowest e first rest hnodes).2.2.2.2 n hn hnon with h1 | h1
      · exact ⟨e.lrng_drng_init, by rw [h1]; exact hfirst, Or.inl rfl⟩
      · obtain ⟨hs, _, hd, _⟩ := hrest n h1
        exact ⟨e.kmalloc_node n, hs, Or.inr hd⟩
  · intro hnoff
    apply hoff
    intro hin
    have := ((mem_for_each_online_node e n).mp hin).2
    rw [hnoff] at this
    exact absurd this (by simp)

/-- All six calls that build the instance of a visited node are among the calls of a
successful pass of the build loop that started with the initial instance already
used. -/
theorem build_loop_used_calls (e : NumaEnv) (ns : List Nat) (b b1 : Build)
    (hflag : b.init_drng_used = true) (h : build_loop e ns b = Flow.next b1) :
    ∀ n, n ∈ ns → ∃ hd hh, e.drng_alloc n = Except.ok hd ∧ e.hash_alloc n = Except.ok hh ∧
      ∀ ev, ev ∈ [NEvent.kmalloc_node (e.kmalloc_node n) n,
                  NEvent.drng_alloc e.init_drng_cb hd, NEvent.hash_alloc e.init_hash_cb hh,
                  NEvent.mutex_init (e.kmalloc_node n), NEvent.rwlock_init (e.kmalloc_node n),
                  NEvent.lrng_pool_inc_numa_node] → ev ∈ b1.trace := by
  induction ns generalizing b with
  | nil => simp
  | cons n rest ih =>
    simp only [build_loop] at h
    cases hb : build_node e n b with
    | goto_err b2 => simp [hb] at h
    | next b2 =>
      simp only [hb] at h
      obtain ⟨hd, hh, hdo, hho, hb2⟩ := build_node_used e n b b2 hflag hb
      have hflag2 : b2.init_drng_used = true := by rw [hb2]
      have hkeep := (build_loop_used_kmalloc e rest b2 b1 hflag2 h).2.2
      intro m hm
      rcases List.mem_cons.mp hm with h1 | h1
      · subst h1
        refine ⟨hd, hh, hdo, hho, fun ev hev => hkeep ev ?_⟩
        rw [hb2]
        exact List.mem_append_right _ hev
      · exact ih b2 hflag2 h m h1

/-- The order of the calls of a run that found the pointer unset and published: the
store to the static pointer comes after every call of the build loop; before it there
is no store, and the calls that build the instance of every online node other than the
first are all before it. -/
theorem run_success_order (e : NumaEnv) (k k1 : Kernel) (tr : List NEvent)
    (arr : List (Option Ptr)) (hun : k.lrng_drng = none)
    (h : _lrng_drngs_numa_alloc e k = some (k1, tr)) (hpub : k1.lrng_drng = some arr) :
    ∃ pre, tr = pre ++ [NEvent.cmpxchg_stored, NEvent.lrng_pool_all_numa_nodes_seeded false,
                        NEvent.mutex_unlock] ∧
      stores pre = 0 ∧
      ∀ first rest, for_each_online_node e = first :: rest → ∀ n, n ∈ rest →
        ∃ hd hh, e.drng_alloc n = Except.ok hd ∧ e.hash_alloc n = Except.ok hh ∧
          NEvent.kmalloc_node (e.kmalloc_node n) n ∈ pre ∧
          NEvent.drng_alloc e.init_drng_cb hd ∈ pre ∧
          NEvent.hash_alloc e.init_hash_cb hh ∈ pre ∧
          NEvent.mutex_init (e.kmalloc_node n) ∈ pre ∧
          NEvent.rwlock_init (e.kmalloc_node n) ∈ pre := by
  rcases run_unpublished e k k1 tr hun h with ⟨hnone, _⟩ | ⟨b, hb, _, _, _, _, htr⟩
  · rw [hnone] at hpub
    exact absurd hpub (by simp)
  · obtain ⟨new, hn, sn⟩ := build_loop_trace e (for_each_online_node e)
      { drngs := List.replicate e.nr_node_ids none, init_drng_used := false,
        heap := k.heap, trace := [NEvent.mutex_lock, NEvent.kcalloc e.nr_node_ids] }
    rw [hb] at hn
    simp only [Flow.build] at hn
    refine ⟨b.trace, htr, ?_, ?_⟩
    · rw [hn, stores_append, sn]
      simp [stores]
    · intro first rest hnodes n hn2
      rw [hnodes, build_loop_start e first rest _ rfl] at hb
      obtain ⟨hd, hh, hdo, hho, hev⟩ := build_loop_used_calls e rest _ b rfl hb n hn2
      exact ⟨hd, hh, hdo, hho, hev _ (by simp), hev _ (by simp), hev _ (by simp),
        hev _ (by simp), hev _ (by simp)⟩

/-- A sequence of runs from a memory with the pointer unset either leaves it unset and
stores nothing, or splits into the runs before the store (which leave the pointer unset
and store nothing), the one run that stores, and the runs after it (which leave the
memory as that run left it and only take and release the mutex). -/
theorem runs_decompose (es : List NumaEnv) (k0 k1 : Kernel) (tr : List NEvent)
    (h0 : k0.lrng_drng = none) (hruns : runs es k0 = some (k1, tr)) :
    (k1.lrng_drng = none ∧ stores tr = 0) ∨
    ∃ before e after kb trb tre tra,
      es = before ++ e :: after ∧
      runs before k0 = some (kb, trb) ∧ kb.lrng_drng = none ∧ stores trb = 0 ∧
      _lrng_drngs_numa_alloc e kb = some (k1, tre) ∧ k1.lrng_drng ≠ none ∧
      runs after k1 = some (k1, tra) ∧
      (∀ ev, ev ∈ tra → ev = NEvent.mutex_lock ∨ ev = NEvent.mutex_unlock) ∧
      tr = trb ++ tre ++ tra := by
  induction es generalizing k0 tr with
  | nil =>
    simp only [runs, Option.some.injEq, Prod.mk.injEq] at hruns
    left
    rw [← hruns.1, ← hruns.2]
    exact ⟨h0, rfl⟩
  | cons e es ih =>
    obtain ⟨k2, tr1, tr2, hrun, hrest, htr⟩ := runs_cons e es k0 k1 tr hruns
    rcases run_unpublished e k0 k2 tr1 h0 hrun with ⟨hnone, hs1⟩ | ⟨b, _, _, hk2, _, _, _⟩
    · rcases ih k2 tr2 hnone hrest with ⟨hk1, hs2⟩ |
        ⟨before, e1, after, kb, trb, tre, tra, hes, hbefore, hkb, hsb, hrun1, hk1, hafter,
          hmutex, htr2⟩
      · left
        exact ⟨hk1, by rw [htr, stores_append, hs1, hs2]⟩
      · right
        refine ⟨e :: before, e1, after, kb, tr1 ++ trb, tre, tra, by rw [hes]; rfl, ?_,
          hkb, by rw [stores_append, hs1, hsb], hrun1, hk1, hafter, hmutex, ?_⟩
        · simp [runs, hrun, hbefore]
        · rw [htr, htr2]
          simp [List.append_assoc]
    · right
      obtain ⟨tr3, h3, hev⟩ := runs_published es k2 b.drngs hk2
      rw [h3] at hrest
      simp only [Option.some.injEq, Prod.mk.injEq] at hrest
      obtain ⟨hk, ht⟩ := hrest
      subst hk
      subst ht
      refine ⟨[], e, es, k0, [], tr1, tr3, rfl, rfl, h0, rfl, hrun, ?_, h3, hev, ?_⟩
      · rw [hk2]
        simp
      · rw [htr]
        simp

/-- C9 (amended): in every memory reached by a sequence of runs from a memory with the
pointer unset, if `lrng_drng_instances` returns an array, then the sequence splits into
runs that left the pointer unset, one run `e` that stored the array, and later runs that
changed nothing.  The store is the third-last call of run `e`, after every call of its
build loop.  The array has the `nr_node_ids` slots of run `e`, and for every node id
below that: if the node was online in run `e`, its slot is non-NULL and holds the
initial instance (initialised, `lrng_drng_initalize` having returned zero in run `e`) or
the address of a live, constructed record that was obtained and whose locks were
initialised before the store; if the node was not online in run `e`, its slot is NULL,
whatever the node's state in later runs. -/
theorem C9_online_slots_constructed (es : List NumaEnv) (k0 k1 : Kernel)
    (tr : List NEvent) (arr : List (Option Ptr)) (h0 : k0.lrng_drng = none)
    (hruns : runs es k0 = some (k1, tr)) (hpub : lrng_drng_instances k1 = some arr) :
    ∃ before e after kb trb pre tra,
      es = before ++ e :: after ∧
      runs before k0 = some (kb, trb) ∧ kb.lrng_drng = none ∧ stores trb = 0 ∧
      _lrng_drngs_numa_alloc e kb
        = some (k1, pre ++ [NEvent.cmpxchg_stored,
                            NEvent.lrng_pool_all_numa_nodes_seeded false,
                            NEvent.mutex_unlock]) ∧
      stores pre = 0 ∧
      runs after k1 = some (k1, tra) ∧
      (∀ ev, ev ∈ tra → ev = NEvent.mutex_lock ∨ ev = NEvent.mutex_unlock) ∧
      tr = trb ++ (pre ++ [NEvent.cmpxchg_stored,
                           NEvent.lrng_pool_all_numa_nodes_seeded false,
                           NEvent.mutex_unlock]) ++ tra ∧
      e.lrng_drng_initalize = 0 ∧ arr.length = e.nr_node_ids ∧
      ∀ n, n < e.nr_node_ids →
        (e.node_online n = true → ∃ p, arr.getD n none = some p ∧
          (p = e.lrng_drng_init ∨
           ((∃ d, k1.heap p = some d ∧ constructed e d) ∧
            NEvent.kmalloc_node p n ∈ pre ∧ NEvent.mutex_init p ∈ pre ∧
            NEvent.rwlock_init p ∈ pre))) ∧
        (e.node_online n = false → arr.getD n none = none) := by
  unfold lrng_drng_instances at hpub
  rcases runs_decompose es k0 k1 tr h0 hruns with ⟨hnone, _⟩ |
    ⟨before, e, after, kb, trb, tre, tra, hes, hbefore, hkb, hsb, hrun, _, hafter, hmutex,
      htr⟩
  · rw [hnone] at hpub
    exact absurd hpub (by simp)
  · obtain ⟨pre, hpre, hspre, horder⟩ := run_success_order e kb k1 tre arr hkb hrun hpub
    obtain ⟨hi, hlen, hoff, hon⟩ := run_success_slots e kb k1 tre arr hkb hrun hpub
    subst hpre
    refine ⟨before, e, after, kb, trb, pre, tra, hes, hbefore, hkb, hsb, hrun, hspre,
      hafter, hmutex, htr, hi, hlen, ?_⟩
    intro n hn
    constructor
    · intro hnon
      cases hnodes : for_each_online_node e with
      | nil =>
        have := (mem_for_each_online_node e n).mpr ⟨hn, hnon⟩
        rw [hnodes] at this
        exact absurd this (by simp)
      | cons first rest =>
        obtain ⟨hfirst, _, hrest⟩ := hon first rest hnodes
        rcases (first_online_lowest e first rest hnodes).2.2.2.2 n hn hnon with h1 | h1
        · exact ⟨e.lrng_drng_init, by rw [h1]; exact hfirst, Or.inl rfl⟩
        · obtain ⟨hs, _, hd, _⟩ := hrest n h1
          obtain ⟨_, _, _, _, hk, _, _, hm, hr⟩ := horder first rest hnodes n h1
          exact ⟨e.kmalloc_node n, hs, Or.inr ⟨hd, hk, hm, hr⟩⟩
    · intro hnoff
      apply hoff
      intro hin
      have := ((mem_for_each_online_node e n).mp hin).2
      rw [hnoff] at this
      exact absurd this (by simp)

/-- C9 (amended) at a concrete sequence: a run that fails at node 2 of four, then a run
with three node ids of which 0 and 2 are online, then a run in which node 1 is online
too.  The array returned afterwards is the one the second run stored: slots 0 and 2 are
valid and slot 1 is NULL. -/
theorem C9_online_slots_constructed_witness :
    ∃ k1 tr, runs [sample_env 4 [0, 1, 2, 3] [2] [] 0, sample_env 3 [0, 2] [] [] 0,
                   sample_env 3 [0, 1, 2] [] [] 0] boot = some (k1, tr) ∧
      lrng_drng_instances k1 = some [some 1000, none, some 2002] ∧
      ∃ before e after,
        [sample_env 4 [0, 1, 2, 3] [2] [] 0, sample_env 3 [0, 2] [] [] 0,
         sample_env 3 [0, 1, 2] [] [] 0] = before ++ e :: after ∧
        e.lrng_drng_initalize = 0 ∧
        [some 1000, none, some 2002].length = e.nr_node_ids ∧
        ∀ n, n < e.nr_node_ids →
          (e.node_online n = true → ∃ p, [some 1000, none, some 2002].getD n none = some p ∧
            (p = e.lrng_drng_init ∨ ∃ d, k1.heap p = some d ∧ constructed e d)) ∧
          (e.node_online n = false → [some 1000, none, some 2002].getD n none = none) := by
  have hval : (runs [sample_env 4 [0, 1, 2, 3] [2] [] 0, sample_env 3 [0, 2] [] [] 0,
      sample_env 3 [0, 1, 2] [] [] 0] boot).map (fun r => lrng_drng_instances r.1)
      = some (some [some 1000, none, some 2002]) := by decide
  cases hr : runs [sample_env 4 [0, 1, 2, 3] [2] [] 0, sample_env 3 [0, 2] [] [] 0,
      sample_env 3 [0, 1, 2] [] [] 0] boot with
  | none =>
    rw [hr] at hval
    exact absurd hval (by simp)
  | some r =>
    rw [hr] at hval
    simp only [Option.map_some', Option.some.injEq] at hval
    obtain ⟨before, e, after, _, _, _, _, hes, _, _, _, _, _, _, _, _, hi, hlen, hslots⟩ :=
      C9_online_slots_constructed _ boot r.1 r.2 _ rfl hr hval
    refine ⟨r.1, r.2, rfl, hval, before, e, after, hes, hi, hlen, fun n hn => ?_⟩
    obtain ⟨hon, hoff⟩ := hslots n hn
    refine ⟨fun h1 => ?_, hoff⟩
    obtain ⟨p, hp, hor⟩ := hon h1
    rcases hor with h2 | ⟨h2, _⟩
    · exact ⟨p, hp, Or.inl h2⟩
    · exact ⟨p, hp, Or.inr h2⟩

/-- An array built while node 1 was not online keeps its NULL slot 1 when a later run
of the job finds node 1 online. -/
theorem slot_stays_null_when_node_comes_online :
    (sample_env 2 [0, 1] [] [] 0).node_online 1 = true ∧
    (runs [sample_env 2 [0] [] [] 0, sample_env 2 [0, 1] [] [] 0] boot).map
      (fun r => lrng_drng_instances r.1) = some (some [some 1000, none]) := by
  decide

/-- C10: for every run that finds the pointer unset and publishes an array, with
`first` the lowest online node id, and `kmalloc_node` returning addresses that differ
from the initial instance and from each other: the slot of `first` holds the initial
instance and no `kmalloc_node` call was made for it; and the slot of every other online
node holds the address that the `kmalloc_node` call for that node returned, which
differs from the initial instance and from the content of every other online slot, and
where the record carries the initial instance's backend descriptor and hash descriptor,
the backend handle and the hash handle allocated for that node, and initialised
locks. -/
theorem C10_initial_reused_others_fresh (e : NumaEnv) (k k1 : Kernel) (tr : List NEvent)
    (arr : List (Option Ptr)) (hun : k.lrng_drng = none)
    (h : _lrng_drngs_numa_alloc e k = some (k1, tr)) (hpub : k1.lrng_drng = some arr)
    (first : Nat) (hfirst : first < e.nr_node_ids) (hfon : e.node_online first = true)
    (hlow : ∀ n, n < e.nr_node_ids → e.node_online n = true → first ≤ n)
    (hfresh_init : ∀ n, n < e.nr_node_ids → e.node_online n = true → n ≠ first →
      e.kmalloc_node n ≠ e.lrng_drng_init)
    (hfresh : ∀ n m, n < e.nr_node_ids → m < e.nr_node_ids → e.node_online n = true →
      e.node_online m = true → n ≠ first → m ≠ first → n ≠ m →
      e.kmalloc_node n ≠ e.kmalloc_node m) :
    arr.getD first none = some e.lrng_drng_init ∧
    (∀ p, NEvent.kmalloc_node p first ∉ tr) ∧
    ∀ n, n < e.nr_node_ids → e.node_online n = true → n ≠ first →
      ∃ hd hh,
        arr.getD n none = some (e.kmalloc_node n) ∧
        NEvent.kmalloc_node (e.kmalloc_node n) n ∈ tr ∧
        e.kmalloc_node n ≠ e.lrng_drng_init ∧
        (∀ m, m < e.nr_node_ids → e.node_online m = true → m ≠ n →
          arr.getD m none ≠ arr.getD n none) ∧
        e.drng_alloc n = Except.ok hd ∧ e.hash_alloc n = Except.ok hh ∧
        k1.heap (e.kmalloc_node n)
          = some { drng := some hd, hash := some hh, drng_cb := some e.init_drng_cb,
                   hash_cb := e.init_hash_cb, lock := true, hash_lock := true } := by
  obtain ⟨_, _, _, hon⟩ := run_success_slots e k k1 tr arr hun h hpub
  cases hnodes : for_each_online_node e with
  | nil =>
    have := (mem_for_each_online_node e first).mpr ⟨hfirst, hfon⟩
    rw [hnodes] at this
    exact absurd this (by simp)
  | cons first0 rest =>
    obtain ⟨hnot, hf0, hf0on, hrest, hall⟩ := first_online_lowest e first0 rest hnodes
    have hfeq : first0 = first := by
      rcases hall first hfirst hfon with h1 | h1
      · exact h1.symm
      · have := (hrest first h1).1
        have := hlow first0 hf0 hf0on
        omega
    subst hfeq
    obtain ⟨hslot0, hnok, hothers⟩ := hon first0 rest hnodes
    refine ⟨hslot0, hnok, ?_⟩
    intro n hn hnon hne
    have hnr : n ∈ rest := by
      rcases hall n hn hnon with h1 | h1
      · exact absurd h1 hne
      · exact h1
    obtain ⟨hs, hk, _, hrec⟩ := hothers n hnr
    obtain ⟨hd, hh, hdo, hho, hheap⟩ := hrec (fun m hm hmn =>
      hfresh m n (hrest m hm).2.1 hn (hrest m hm).2.2 hnon
        (fun h1 => hnot (h1 ▸ hm)) hne hmn)
    refine ⟨hd, hh, hs, hk, hfresh_init n hn hnon hne, ?_, hdo, hho, hheap⟩
    intro m hm hmon hmn
    rw [hs]
    rcases hall m hm hmon with h1 | h1
    · rw [h1, hslot0]
      intro heq
      exact hfresh_init n hn hnon hne (Option.some.inj heq).symm
    · rw [(hothers m h1).1]
      intro heq
      exact hfresh m n hm hn hmon hnon (fun h2 => hnot (h2 ▸ h1)) hne hmn
        (Option.some.inj heq)

/-- C10 at a concrete run: three node ids, nodes 0 and 2 online, all allocations
succeeding: slot 0 holds the initial instance (address 1000) and slot 2 the new record
at address 2002. -/
theorem C10_initial_reused_others_fresh_witness :
    ∃ k1 tr, _lrng_drngs_numa_alloc (sample_env 3 [0, 2] [] [] 0) boot = some (k1, tr) ∧
      k1.lrng_drng = some [some 1000, none, some 2002] ∧
      (∀ p, NEvent.kmalloc_node p 0 ∉ tr) ∧
      k1.heap 2002 = some { drng := some 3002, hash := some 4002, drng_cb := some 7,
                            hash_cb := some 8, lock := true, hash_lock := true } := by
  have hval : (_lrng_drngs_numa_alloc (sample_env 3 [0, 2] [] [] 0) boot).map
      (fun r => r.1.lrng_drng) = some (some [some 1000, none, some 2002]) := by decide
  cases hr : _lrng_drngs_numa_alloc (sample_env 3 [0, 2] [] [] 0) boot with
  | none =>
    rw [hr] at hval
    exact absurd hval (by simp)
  | some r =>
    rw [hr] at hval
    simp only [Option.map_some', Option.some.injEq] at hval
    have hc := C10_initial_reused_others_fresh (sample_env 3 [0, 2] [] [] 0) boot r.1 r.2
      [some 1000, none, some 2002] rfl hr hval 0 (by decide) (by decide)
      (fun n _ _ => Nat.zero_le n)
      (fun n hn _ _ => by
        show 2000 + n ≠ 1000
        omega)
      (fun n m _ _ _ _ _ _ hnm => by
        show 2000 + n ≠ 2000 + m
        omega)
    obtain ⟨hd, hh, _, _, _, _, hdo, hho, hheap⟩ := hc.2.2 2 (by decide) (by decide)
      (by decide)
    have hd2 : hd = 3002 := by
      have : (Except.ok 3002 : Except Int Nat) = Except.ok hd := hdo
      exact (Except.ok.inj this).symm
    have hh2 : hh = 4002 := by
      have : (Except.ok 4002 : Except Int Nat) = Except.ok hh := hho
      exact (Except.ok.inj this).symm
    subst hd2
    subst hh2
    exact ⟨r.1, r.2, rfl, hval, hc.2.1, hheap⟩

/-! ### Rollback after a failure inside the build loop -/

/-- A failing iteration: the array is untouched, the record just obtained is freed, and
the calls are the `kmalloc_node`, then either nothing (the backend allocation failed)
or the backend allocation and its undoing (the hash allocation failed), then the
`kfree`. -/
theorem build_node_fail (e : NumaEnv) (n : Nat) (b b1 : Build)
    (hflag : b.init_drng_used = true) (h : build_node e n b = Flow.goto_err b1) :
    b1.drngs = b.drngs ∧ b1.heap = store b.heap (e.kmalloc_node n) none ∧
    ((∀ hd, e.drng_alloc n ≠ Except.ok hd) ∨ (∀ hh, e.hash_alloc n ≠ Except.ok hh)) ∧
    ∃ mid, b1.trace = b.trace ++ ([NEvent.kmalloc_node (e.kmalloc_node n) n] ++ mid ++
        [NEvent.kfree (e.kmalloc_node n)]) ∧
      (mid = [] ∨ ∃ hd, mid = [NEvent.drng_alloc e.init_drng_cb hd,
        NEvent.drng_dealloc (some e.init_drng_cb) (some hd)]) := by
  unfold build_node at h
  simp only [hflag, Bool.not_true, Bool.false_eq_true, if_false] at h
  cases hd : e.drng_alloc n with
  | error c =>
    simp only [hd, lrng_drng_alloc_common, Flow.goto_err.injEq] at h
    rw [← h]
    exact ⟨rfl, rfl, Or.inl (fun _ => by simp), [], by simp, Or.inl rfl⟩
  | ok hdv =>
    cases hh : e.hash_alloc n with
    | error c =>
      simp only [hd, hh, lrng_drng_alloc_common, Flow.goto_err.injEq] at h
      rw [← h]
      exact ⟨rfl, rfl, Or.inr (fun _ => by simp), _, by simp, Or.inr ⟨hdv, rfl⟩⟩
    | ok hhv => simp [hd, hh, lrng_drng_alloc_common] at h

/-- A pass of the build loop that jumps to `err` built a first part of the nodes
successfully and failed at the node after them. -/
theorem build_loop_fail (e : NumaEnv) (ns : List Nat) (b b1 : Build)
    (hflag : b.init_drng_used = true) (h : build_loop e ns b = Flow.goto_err b1) :
    ∃ done bad remaining bmid, ns = done ++ bad :: remaining ∧
      build_loop e done b = Flow.next bmid ∧ bmid.init_drng_used = true ∧
      build_node e bad bmid = Flow.goto_err b1 := by
  induction ns generalizing b with
  | nil => simp [build_loop] at h
  | cons n rest ih =>
    simp only [build_loop] at h
    cases hb : build_node e n b with
    | goto_err b2 =>
      simp only [hb, Flow.goto_err.injEq] at h
      subst h
      exact ⟨[], n, rest, b, rfl, rfl, hflag, hb⟩
    | next b2 =>
      simp only [hb] at h
      obtain ⟨_, _, _, _, hb2⟩ := build_node_used e n b b2 hflag hb
      have hflag2 : b2.init_drng_used = true := by rw [hb2]
      obtain ⟨done, bad, remaining, bmid, hns, hdone, hfl, hbad⟩ := ih b2 hflag2 h
      refine ⟨n :: done, bad, remaining, bmid, by rw [hns]; rfl, ?_, hfl, hbad⟩
      simp only [build_loop, hb]
      exact hdone

/-- Every call of a successful pass of the build loop that started with the initial
instance already used is one of the six calls of a visited node whose two allocations
succeeded. -/
theorem build_loop_used_events (e : NumaEnv) (ns : List Nat) (b b1 : Build)
    (hflag : b.init_drng_used = true) (h : build_loop e ns b = Flow.next b1) :
    ∀ ev, ev ∈ b1.trace → ev ∈ b.trace ∨
      ∃ n, n ∈ ns ∧ ∃ hd hh, e.drng_alloc n = Except.ok hd ∧
        e.hash_alloc n = Except.ok hh ∧
        ev ∈ [NEvent.kmalloc_node (e.kmalloc_node n) n, NEvent.drng_alloc e.init_drng_cb hd,
              NEvent.hash_alloc e.init_hash_cb hh, NEvent.mutex_init (e.kmalloc_node n),
              NEvent.rwlock_init (e.kmalloc_node n), NEvent.lrng_pool_inc_numa_node] := by
  induction ns generalizing b with
  | nil =>
    simp only [build_loop, Flow.next.injEq] at h
    subst h
    intro ev hev
    exact Or.inl hev
  | cons n rest ih =>
    simp only [build_loop] at h
    cases hb : build_node e n b with
    | goto_err b2 => simp [hb] at h
    | next b2 =>
      simp only [hb] at h
      obtain ⟨hd, hh, hdo, hho, hb2⟩ := build_node_used e n b b2 hflag hb
      have hflag2 : b2.init_drng_used = true := by rw [hb2]
      intro ev hev
      rcases ih b2 hflag2 h ev hev with h1 | ⟨m, hm, hrest⟩
      · rw [hb2] at h1
        rcases List.mem_append.mp h1 with h2 | h2
        · exact Or.inl h2
        · exact Or.inr ⟨n, List.mem_cons_self _ _, hd, hh, hdo, hho, h2⟩
      · exact Or.inr ⟨m, List.mem_cons_of_mem _ hm, hrest⟩

/-- The rollback loop over nodes whose slots are NULL, the initial instance, or the
address obtained for the node with a live record there, the addresses of different
nodes being different: the loop completes; afterwards no record lives at the address
of a visited node with a slot of its own, every other address is untouched, and the new
calls are, for each such node, the release of its hash handle, of its backend handle
and of its record. -/
theorem rollback_loop_spec (e : NumaEnv) (drngs : List (Option Ptr)) (ns : List Nat)
    (heap : Ptr → Option lrng_drng) (tr : List NEvent) (hnodup : ns.Nodup)
    (hslots : ∀ n, n ∈ ns → drngs.getD n none = none ∨
      drngs.getD n none = some e.lrng_drng_init ∨
      (drngs.getD n none = some (e.kmalloc_node n) ∧
        ∃ d, heap (e.kmalloc_node n) = some d))
    (hdist : ∀ n m, n ∈ ns → m ∈ ns → n ≠ m → e.kmalloc_node n ≠ e.kmalloc_node m) :
    ∃ heap1 new, rollback_loop e drngs ns (heap, tr) = some (heap1, tr ++ new) ∧
      (∀ p, heap1 p = none ∨ heap1 p = heap p) ∧
      (∀ n, n ∈ ns → drngs.getD n none = some (e.kmalloc_node n) →
        e.kmalloc_node n ≠ e.lrng_drng_init →
        heap1 (e.kmalloc_node n) = none ∧
        ∃ d, heap (e.kmalloc_node n) = some d ∧
          NEvent.hash_dealloc d.hash_cb d.hash ∈ new ∧
          NEvent.drng_dealloc d.drng_cb d.drng ∈ new ∧
          NEvent.kfree (e.kmalloc_node n) ∈ new) ∧
      (∀ ev, ev ∈ new → ∃ n, n ∈ ns ∧ e.kmalloc_node n ≠ e.lrng_drng_init ∧
        drngs.getD n none = some (e.kmalloc_node n) ∧
        ∃ d, heap (e.kmalloc_node n) = some d ∧
          ev ∈ [NEvent.hash_dealloc d.hash_cb d.hash, NEvent.drng_dealloc d.drng_cb d.drng,
                NEvent.kfree (e.kmalloc_node n)]) ∧
      (∀ p, (∀ n, n ∈ ns → p ≠ e.kmalloc_node n) → heap1 p = heap p) := by
  induction ns generalizing heap tr with
  | nil =>
    exact ⟨heap, [], by simp [rollback_loop], fun _ => Or.inr rfl, by simp, by simp,
      fun _ _ => rfl⟩
  | cons n rest ih =>
    have hnd := List.nodup_cons.mp hnodup
    have hslots_rest : ∀ m, m ∈ rest → drngs.getD m none = none ∨
        drngs.getD m none = some e.lrng_drng_init ∨
        (drngs.getD m none = some (e.kmalloc_node m) ∧
          ∃ d, heap (e.kmalloc_node m) = some d) :=
      fun m hm => hslots m (List.mem_cons_of_mem _ hm)
    have hdist_rest : ∀ a b, a ∈ rest → b ∈ rest → a ≠ b →
        e.kmalloc_node a ≠ e.kmalloc_node b :=
      fun a b ha hb => hdist a b (List.mem_cons_of_mem _ ha) (List.mem_cons_of_mem _ hb)
    have hskip : (drngs.getD n none = none ∨ drngs.getD n none = some e.lrng_drng_init) →
        rollback_loop e drngs (n :: rest) (heap, tr) = rollback_loop e drngs rest (heap, tr) := by
      intro hs
      rcases hs with hs | hs
      · simp only [rollback_loop, hs, reduceCtorEq, ↓reduceIte]
      · simp only [rollback_loop, hs, ↓reduceIte]
    have hcase : (drngs.getD n none = none ∨ drngs.getD n none = some e.lrng_drng_init) ∨
        (drngs.getD n none = some (e.kmalloc_node n) ∧
          e.kmalloc_node n ≠ e.lrng_drng_init ∧ ∃ d, heap (e.kmalloc_node n) = some d) := by
      rcases hslots n (List.mem_cons_self _ _) with h1 | h1 | ⟨h1, h2⟩
      · exact Or.inl (Or.inl h1)
      · exact Or.inl (Or.inr h1)
      · by_cases hi : e.kmalloc_node n = e.lrng_drng_init
        · exact Or.inl (Or.inr (by rw [h1, hi]))
        · exact Or.inr ⟨h1, hi, h2⟩
    rcases hcase with hs | ⟨hs, hne, d, hd⟩
    · obtain ⟨heap1, new, hrun, hheap, hin, hev, hfar⟩ :=
        ih heap tr hnd.2 hslots_rest hdist_rest
      refine ⟨heap1, new, by rw [hskip hs]; exact hrun, hheap, ?_, ?_,
        fun p hp => hfar p (fun m hm => hp m (List.mem_cons_of_mem _ hm))⟩
      · intro m hm hsm hnem
        rcases List.mem_cons.mp hm with h1 | h1
        · subst h1
          rcases hs with hs | hs
          · rw [hs] at hsm
            exact absurd hsm (by simp)
          · rw [hs] at hsm
            exact absurd (Option.some.inj hsm).symm hnem
        · exact hin m h1 hsm hnem
      · intro ev hin2
        obtain ⟨m, hm, hrest⟩ := hev ev hin2
        exact ⟨m, List.mem_cons_of_mem _ hm, hrest⟩
    · have hkeep : ∀ m, m ∈ rest →
          store heap (e.kmalloc_node n) none (e.kmalloc_node m) = heap (e.kmalloc_node m) := by
        intro m hm
        have hmn : m ≠ n := fun h1 => hnd.1 (h1 ▸ hm)
        have := hdist m n (List.mem_cons_of_mem _ hm) (List.mem_cons_self _ _) hmn
        simp [store_apply, this]
      have hslots1 : ∀ m, m ∈ rest → drngs.getD m none = none ∨
          drngs.getD m none = some e.lrng_drng_init ∨
          (drngs.getD m none = some (e.kmalloc_node m) ∧
            ∃ d, store heap (e.kmalloc_node n) none (e.kmalloc_node m) = some d) := by
        intro m hm
        rw [hkeep m hm]
        exact hslots_rest m hm
      obtain ⟨heap1, new, hrun, hheap, hin, hev, hfar⟩ :=
        ih (store heap (e.kmalloc_node n) none)
          (tr ++ [NEvent.hash_dealloc d.hash_cb d.hash, NEvent.drng_dealloc d.drng_cb d.drng,
                  NEvent.kfree (e.kmalloc_node n)]) hnd.2 hslots1 hdist_rest
      have hnotinit : ¬ (some (e.kmalloc_node n) = some e.lrng_drng_init) :=
        fun h1 => hne (Option.some.inj h1)
      refine ⟨heap1, [NEvent.hash_dealloc d.hash_cb d.hash,
          NEvent.drng_dealloc d.drng_cb d.drng, NEvent.kfree (e.kmalloc_node n)] ++ new,
        ?_, ?_, ?_, ?_, ?_⟩
      · simp only [rollback_loop, hs, hnotinit, if_false, hd]
        rw [hrun, List.append_assoc]
      · intro p
        rcases hheap p with h1 | h1
        · exact Or.inl h1
        · rw [h1, store_apply]
          by_cases hp : p = e.kmalloc_node n
          · simp [hp]
          · simp [hp]
      · intro m hm hsm hnem
        rcases List.mem_cons.mp hm with h1 | h1
        · subst h1
          refine ⟨?_, d, hd, by simp, by simp, by simp⟩
          rcases hheap (e.kmalloc_node m) with h2 | h2
          · exact h2
          · rw [h2]
            simp [store_apply]
        · obtain ⟨hnone, d1, hd1, he1, he2, he3⟩ := hin m h1 hsm hnem
          rw [hkeep m h1] at hd1
          exact ⟨hnone, d1, hd1, List.mem_append_right _ he1, List.mem_append_right _ he2,
            List.mem_append_right _ he3⟩
      · intro ev hin2
        rcases List.mem_append.mp hin2 with h1 | h1
        · exact ⟨n, List.mem_cons_self _ _, hne, hs, d, hd, h1⟩
        · obtain ⟨m, hm, hmne, hms, d1, hd1, hev1⟩ := hev ev h1
          rw [hkeep m hm] at hd1
          exact ⟨m, List.mem_cons_of_mem _ hm, hmne, hms, d1, hd1, hev1⟩
      · intro p hp
        rw [hfar p (fun m hm => hp m (List.mem_cons_of_mem _ hm)), store_apply,
          if_neg (hp n (List.mem_cons_self _ _))]

/-- A successful pass of the build loop that started with the initial instance already
used means both allocations succeeded for every visited node. -/
theorem build_loop_used_ok (e : NumaEnv) (ns : List Nat) (b b1 : Build)
    (hflag : b.init_drng_used = true) (h : build_loop e ns b = Flow.next b1) :
    ∀ n, n ∈ ns → ∃ hd hh, e.drng_alloc n = Except.ok hd ∧ e.hash_alloc n = Except.ok hh := by
  induction ns generalizing b with
  | nil => simp
  | cons n rest ih =>
    simp only [build_loop] at h
    cases hb : build_node e n b with
    | goto_err b2 => simp [hb] at h
    | next b2 =>
      simp only [hb] at h
      obtain ⟨hd, hh, hdo, hho, hb2⟩ := build_node_used e n b b2 hflag hb
      have hflag2 : b2.init_drng_used = true := by rw [hb2]
      intro m hm
      rcases List.mem_cons.mp hm with h1 | h1
      · exact ⟨hd, hh, h1 ▸ hdo, h1 ▸ hho⟩
      · exact ih b2 hflag2 h m h1

/-- Rollback after a failure inside the build loop.  The pointer is unset,
`lrng_drng_initalize` succeeded, and the backend allocation or the hash allocation
fails for some online node other than the first; `kmalloc_node` returns addresses that
hold no live record, differ from the initial instance and from each other.  Then the
run completes with the pointer still unset and nothing stored to it; the instance
records in memory are exactly those from before the run; every record obtained from
`kmalloc_node` in the run was passed to `kfree`; every backend handle and every hash
handle allocated in the run was passed to the matching dealloc operation; the array
was freed; and the initial instance was not freed. -/
theorem rollback_complete (e : NumaEnv) (k : Kernel) (hun : k.lrng_drng = none)
    (hinit : e.lrng_drng_initalize = 0) (first : Nat) (rest : List Nat)
    (hnodes : for_each_online_node e = first :: rest)
    (hfail : ∃ n, n ∈ rest ∧ ((∀ hd, e.drng_alloc n ≠ Except.ok hd) ∨
      (∀ hh, e.hash_alloc n ≠ Except.ok hh)))
    (hfree : ∀ n, n ∈ rest → k.heap (e.kmalloc_node n) = none)
    (hfresh_init : ∀ n, n ∈ rest → e.kmalloc_node n ≠ e.lrng_drng_init)
    (hfresh : ∀ n m, n ∈ rest → m ∈ rest → n ≠ m → e.kmalloc_node n ≠ e.kmalloc_node m) :
    ∃ k1 tr, _lrng_drngs_numa_alloc e k = some (k1, tr) ∧
      k1.lrng_drng = none ∧ stores tr = 0 ∧
      (∀ p, k1.heap p = k.heap p) ∧
      (∀ p n, NEvent.kmalloc_node p n ∈ tr → NEvent.kfree p ∈ tr) ∧
      (∀ cb h, NEvent.drng_alloc cb h ∈ tr → NEvent.drng_dealloc (some cb) (some h) ∈ tr) ∧
      (∀ cb h, NEvent.hash_alloc cb h ∈ tr → NEvent.hash_dealloc cb (some h) ∈ tr) ∧
      NEvent.kfree_drngs ∈ tr ∧ NEvent.kfree e.lrng_drng_init ∉ tr := by
  obtain ⟨hnot, hfirst, _, hrestmem, _⟩ := first_online_lowest e first rest hnodes
  have hnodup : rest.Nodup := by
    have hs := for_each_online_node_sorted e
    rw [hnodes] at hs
    exact ((List.pairwise_cons.mp hs).2).imp (fun hlt => Nat.ne_of_lt hlt)
  have hloop := build_loop_start e first rest
    { drngs := List.replicate e.nr_node_ids none, init_drng_used := false,
      heap := k.heap, trace := [NEvent.mutex_lock, NEvent.kcalloc e.nr_node_ids] } rfl
  simp only at hloop
  cases hb : build_loop e rest
      { drngs := (List.replicate e.nr_node_ids (none : Option Ptr)).set first
          (some e.lrng_drng_init),
        init_drng_used := true, heap := k.heap,
        trace := [NEvent.mutex_lock, NEvent.kcalloc e.nr_node_ids] } with
  | next b =>
    obtain ⟨n, hn, hbad⟩ := hfail
    obtain ⟨hd, hh, hdo, hho⟩ := build_loop_used_ok e rest _ b rfl hb n hn
    rcases hbad with h1 | h1
    · exact absurd hdo (h1 hd)
    · exact absurd hho (h1 hh)
  | goto_err b =>
    obtain ⟨done, bad, remaining, bmid, hsplit, hdone, hflmid, hbadnode⟩ :=
      build_loop_fail e rest _ b rfl hb
    obtain ⟨hbd, hbh, _, mid, hbt, hmid⟩ := build_node_fail e bad bmid b hflmid hbadnode
    obtain ⟨hlen, hin, hout⟩ := build_loop_used_slots e done _ bmid rfl hdone
    obtain ⟨hheapin, hheapout⟩ := build_loop_used_heap e done _ bmid rfl hdone
    have hevents := build_loop_used_events e done _ bmid rfl hdone
    simp only [List.length_set, List.length_replicate] at hlen hin hout hheapout hevents
    -- membership in the three parts of the node list
    have hdone_rest : ∀ n, n ∈ done → n ∈ rest := fun n hn => by
      rw [hsplit]
      exact List.mem_append_left _ hn
    have hbad_rest : bad ∈ rest := by
      rw [hsplit]
      exact List.mem_append_right _ (List.mem_cons_self _ _)
    have hbad_done : bad ∉ done := by
      rw [hsplit] at hnodup
      intro hbd2
      have := (List.nodup_append.mp hnodup).2.2
      exact this hbd2 (List.mem_cons_self _ _) 
    have hkm_bad : ∀ n, n ∈ done → e.kmalloc_node n ≠ e.kmalloc_node bad :=
      fun n hn => hfresh n bad (hdone_rest n hn) hbad_rest (fun h1 => hbad_done (h1 ▸ hn))
    -- the records of the nodes built before the failure
    have hrecord : ∀ n, n ∈ done → ∃ hd hh, e.drng_alloc n = Except.ok hd ∧
        e.hash_alloc n = Except.ok hh ∧
        b.heap (e.kmalloc_node n)
          = some { drng := some hd, hash := some hh, drng_cb := some e.init_drng_cb,
                   hash_cb := e.init_hash_cb, lock := true, hash_lock := true } := by
      intro n hn
      obtain ⟨hd, hh, hdo, hho, hrec⟩ := build_loop_used_record e done _ bmid rfl hdone n hn
        (fun m hm hmn => hfresh m n (hdone_rest m hm) (hdone_rest n hn) hmn)
      refine ⟨hd, hh, hdo, hho, ?_⟩
      rw [hbh, store_apply, if_neg (hkm_bad n hn)]
      exact hrec
    -- the slots the rollback loop reads
    have hslot_first : b.drngs.getD first none = some e.lrng_drng_init := by
      rw [hbd, hout first (fun h1 => hnot (hdone_rest first h1)), getD_set_slot]
      simp [hfirst]
    have hslot_done : ∀ n, n ∈ done → b.drngs.getD n none = some (e.kmalloc_node n) :=
      fun n hn => by
        rw [hbd]
        exact hin n hn (hrestmem n (hdone_rest n hn)).2.1
    have hslot_other : ∀ n, n ∈ rest → n ∉ done → b.drngs.getD n none = none := by
      intro n hn hnd
      have hne : n ≠ first := fun h1 => hnot (h1 ▸ hn)
      rw [hbd, hout n hnd, getD_set_slot]
      simp only [hne, false_and, if_false]
      exact getD_replicate_none _ _
    have hslots : ∀ n, n ∈ rest → b.drngs.getD n none = none ∨
        b.drngs.getD n none = some e.lrng_drng_init ∨
        (b.drngs.getD n none = some (e.kmalloc_node n) ∧
          ∃ d, b.heap (e.kmalloc_node n) = some d) := by
      intro n hn
      by_cases hnd : n ∈ done
      · obtain ⟨hd, hh, _, _, hrec⟩ := hrecord n hnd
        exact Or.inr (Or.inr ⟨hslot_done n hnd, _, hrec⟩)
      · exact Or.inl (hslot_other n hn hnd)
    obtain ⟨heap1, new, hroll, hheap1, hrin, hrev, hfar⟩ :=
      rollback_loop_spec e b.drngs rest b.heap b.trace hnodup hslots hfresh
    have hroll_all : rollback_loop e b.drngs (for_each_online_node e) (b.heap, b.trace)
        = some (heap1, b.trace ++ new) := by
      rw [hnodes]
      simp only [rollback_loop, hslot_first, ↓reduceIte]
      exact hroll
    have hrun : _lrng_drngs_numa_alloc e k
        = some ({ heap := heap1, lrng_drng := none },
                b.trace ++ new ++ [NEvent.kfree_drngs, NEvent.mutex_unlock]) := by
      unfold _lrng_drngs_numa_alloc
      simp only [hun, hinit, ne_eq, not_true_eq_false, if_false]
      rw [hnodes, hloop, hb]
      simp only [err_path]
      rw [hroll_all]
    have hstores := run_unpublished e k _ _ hun hrun
    have hs0 : stores (b.trace ++ new ++ [NEvent.kfree_drngs, NEvent.mutex_unlock]) = 0 := by
      rcases hstores with ⟨_, h0⟩ | ⟨b2, hb2, _⟩
      · exact h0
      · rw [hnodes, hloop, hb] at hb2
        exact absurd hb2 (by simp)
    -- where the calls of the run come from
    have hsrc : ∀ ev, ev ∈ b.trace ++ new ++ [NEvent.kfree_drngs, NEvent.mutex_unlock] →
        (ev = NEvent.mutex_lock ∨ ev = NEvent.kcalloc e.nr_node_ids ∨
         ev = NEvent.kfree_drngs ∨ ev = NEvent.mutex_unlock) ∨
        (∃ n, n ∈ done ∧ ∃ hd hh, e.drng_alloc n = Except.ok hd ∧
          e.hash_alloc n = Except.ok hh ∧
          ev ∈ [NEvent.kmalloc_node (e.kmalloc_node n) n,
                NEvent.drng_alloc e.init_drng_cb hd, NEvent.hash_alloc e.init_hash_cb hh,
                NEvent.mutex_init (e.kmalloc_node n), NEvent.rwlock_init (e.kmalloc_node n),
                NEvent.lrng_pool_inc_numa_node]) ∨
        ev ∈ [NEvent.kmalloc_node (e.kmalloc_node bad) bad] ++ mid ++
          [NEvent.kfree (e.kmalloc_node bad)] ∨
        (∃ n, n ∈ done ∧ ∃ hd hh, e.drng_alloc n = Except.ok hd ∧
          e.hash_alloc n = Except.ok hh ∧
          ev ∈ [NEvent.hash_dealloc e.init_hash_cb (some hh),
                NEvent.drng_dealloc (some e.init_drng_cb) (some hd),
                NEvent.kfree (e.kmalloc_node n)]) := by
      intro ev hev
      rcases List.mem_append.mp hev with h1 | h1
      · rcases List.mem_append.mp h1 with h2 | h2
        · rw [hbt] at h2
          rcases List.mem_append.mp h2 with h3 | h3
          · rcases hevents ev h3 with h4 | h4
            · simp only [List.mem_cons, List.mem_singleton, List.not_mem_nil, or_false] at h4
              rcases h4 with h5 | h5
              · exact Or.inl (Or.inl h5)
              · exact Or.inl (Or.inr (Or.inl h5))
            · exact Or.inr (Or.inl h4)
          · exact Or.inr (Or.inr (Or.inl h3))
        · obtain ⟨n, hn, hne, hsl, d, hd, hev1⟩ := hrev ev h2
          have hnd : n ∈ done := by
            by_contra hnd
            rw [hslot_other n hn hnd] at hsl
            exact absurd hsl (by simp)
          obtain ⟨hdv, hhv, hdo, hho, hrec⟩ := hrecord n hnd
          rw [hrec] at hd
          have hdeq := (Option.some.inj hd).symm
          subst hdeq
          exact Or.inr (Or.inr (Or.inr ⟨n, hnd, hdv, hhv, hdo, hho, hev1⟩))
      · simp only [List.mem_cons, List.mem_singleton, List.not_mem_nil, or_false] at h1
        rcases h1 with h2 | h2
        · exact Or.inl (Or.inr (Or.inr (Or.inl h2)))
        · exact Or.inl (Or.inr (Or.inr (Or.inr h2)))
    -- the releases made by the rollback loop for a node built before the failure
    have hreleased : ∀ n, n ∈ done → ∀ hd hh, e.drng_alloc n = Except.ok hd →
        e.hash_alloc n = Except.ok hh →
        NEvent.hash_dealloc e.init_hash_cb (some hh) ∈ new ∧
        NEvent.drng_dealloc (some e.init_drng_cb) (some hd) ∈ new ∧
        NEvent.kfree (e.kmalloc_node n) ∈ new := by
      intro n hn hd hh hdo hho
      obtain ⟨_, d, hdh, h1, h2, h3⟩ := hrin n (hdone_rest n hn) (hslot_done n hn)
        (hfresh_init n (hdone_rest n hn))
      obtain ⟨hd1, hh1, hdo1, hho1, hrec⟩ := hrecord n hn
      rw [hrec] at hdh
      have hdeq := (Option.some.inj hdh).symm
      subst hdeq
      have e1 : hd1 = hd := Except.ok.inj (hdo1.symm.trans hdo)
      have e2 : hh1 = hh := Except.ok.inj (hho1.symm.trans hho)
      subst e1
      subst e2
      exact ⟨h1, h2, h3⟩
    have hnew_in : ∀ ev, ev ∈ new →
        ev ∈ b.trace ++ new ++ [NEvent.kfree_drngs, NEvent.mutex_unlock] :=
      fun ev hev => List.mem_append_left _ (List.mem_append_right _ hev)
    have hfail_in : ∀ ev, ev ∈ [NEvent.kmalloc_node (e.kmalloc_node bad) bad] ++ mid ++
        [NEvent.kfree (e.kmalloc_node bad)] →
        ev ∈ b.trace ++ new ++ [NEvent.kfree_drngs, NEvent.mutex_unlock] := by
      intro ev hev
      rw [hbt]
      exact List.mem_append_left _ (List.mem_append_left _ (List.mem_append_right _ hev))
    refine ⟨_, _, hrun, rfl, hs0, ?_, ?_, ?_, ?_, ?_, ?_⟩
    · -- memory is as before
      intro p
      show heap1 p = k.heap p
      by_cases hp : ∃ n, n ∈ rest ∧ p = e.kmalloc_node n
      · obtain ⟨n, hn, hpn⟩ := hp
        rw [hpn, hfree n hn]
        by_cases hnd : n ∈ done
        · exact (hrin n hn (hslot_done n hnd) (hfresh_init n hn)).1
        · rcases hheap1 (e.kmalloc_node n) with h1 | h1
          · exact h1
          · rw [h1, hbh, store_apply]
            by_cases hnb : e.kmalloc_node n = e.kmalloc_node bad
            · simp [hnb]
            · rw [if_neg hnb, hheapout (e.kmalloc_node n)
                (fun m hm => fun heq => hnd (by
                  by_contra _
                  exact hfresh n m hn (hdone_rest m hm) (fun h2 => hnd (h2 ▸ hm)) heq))]
              exact hfree n hn
      · have hpn : ∀ n, n ∈ rest → p ≠ e.kmalloc_node n := fun n hn heq => hp ⟨n, hn, heq⟩
        rw [hfar p hpn, hbh, store_apply, if_neg (hpn bad hbad_rest)]
        exact hheapout p (fun n hn => hpn n (hdone_rest n hn))
    · -- every record obtained was freed
      intro p n hev
      rcases hsrc _ hev with h1 | ⟨m, hm, hd, hh, hdo, hho, h1⟩ | h1 | ⟨m, _, _, _, _, _, h1⟩
      · simp at h1
      · simp only [List.mem_cons, NEvent.kmalloc_node.injEq, reduceCtorEq,
          List.mem_singleton, List.not_mem_nil, or_false] at h1
        rw [h1.1]
        exact hnew_in _ (hreleased m hm hd hh hdo hho).2.2
      · have hp : p = e.kmalloc_node bad := by
          rcases hmid with h2 | ⟨hd, h2⟩
          · subst h2
            simp at h1
            exact h1.1
          · subst h2
            simp at h1
            exact h1.1
        rw [hp]
        exact hfail_in _ (by simp)
      · simp at h1
    · -- every backend handle allocated was released
      intro cb h hev
      rcases hsrc _ hev with h1 | ⟨m, hm, hd, hh, hdo, hho, h1⟩ | h1 | ⟨m, _, _, _, _, _, h1⟩
      · simp at h1
      · simp only [List.mem_cons, NEvent.drng_alloc.injEq, reduceCtorEq,
          List.mem_singleton, List.not_mem_nil, or_false, false_or] at h1
        rw [h1.1, h1.2]
        exact hnew_in _ (hreleased m hm hd hh hdo hho).2.1
      · rcases hmid with h2 | ⟨hd, h2⟩
        · subst h2
          simp at h1
        · subst h2
          simp at h1
          rw [h1.1, h1.2]
          exact hfail_in _ (by simp)
      · simp at h1
    · -- every hash handle allocated was released
      intro cb h hev
      rcases hsrc _ hev with h1 | ⟨m, hm, hd, hh, hdo, hho, h1⟩ | h1 | ⟨m, _, _, _, _, _, h1⟩
      · simp at h1
      · simp only [List.mem_cons, NEvent.hash_alloc.injEq, reduceCtorEq,
          List.mem_singleton, List.not_mem_nil, or_false, false_or] at h1
        rw [h1.1, h1.2]
        exact hnew_in _ (hreleased m hm hd hh hdo hho).1
      · rcases hmid with h2 | ⟨hd, h2⟩
        · subst h2
          simp at h1
        · subst h2
          simp at h1
      · simp at h1
    · simp
    · -- the initial instance was not freed
      intro hev
      rcases hsrc _ hev with h1 | ⟨m, hm, hd, hh, hdo, hho, h1⟩ | h1 | ⟨m, hm, _, _, _, _, h1⟩
      · simp at h1
      · simp at h1
      · have hp : e.lrng_drng_init = e.kmalloc_node bad := by
          rcases hmid with h2 | ⟨hd, h2⟩
          · subst h2
            simp at h1
            exact h1
          · subst h2
            simp at h1
            exact h1
        exact hfresh_init bad hbad_rest hp.symm
      · simp at h1
        exact hfresh_init m (hdone_rest m hm) h1.symm

/-- The rollback theorem at a concrete run: four online nodes, the backend allocation
for node 2 fails; the run completes, the pointer stays unset and the record of node 1
is freed. -/
theorem rollback_complete_example :
    ∃ k1 tr, _lrng_drngs_numa_alloc (sample_env 4 [0, 1, 2, 3] [2] [] 0) boot
        = some (k1, tr) ∧
      k1.lrng_drng = none ∧ (∀ p, k1.heap p = none) ∧
      NEvent.kfree 2001 ∈ tr ∧ NEvent.kfree 1000 ∉ tr := by
  obtain ⟨k1, tr, hrun, hptr, _, hheap, hfreed, _, _, _, hinit⟩ :=
    rollback_complete (sample_env 4 [0, 1, 2, 3] [2] [] 0) boot rfl rfl 0 [1, 2, 3]
      (by decide) ⟨2, by decide, Or.inl (fun hd hc => by cases hc)⟩ (fun _ _ => rfl)
      (fun n _ => by
        show 2000 + n ≠ 1000
        omega)
      (fun n m _ _ hnm => by
        show 2000 + n ≠ 2000 + m
        omega)
  have hk : NEvent.kmalloc_node 2001 1 ∈ tr := by
    have hmem : ((_lrng_drngs_numa_alloc (sample_env 4 [0, 1, 2, 3] [2] [] 0) boot).map
        (fun r => decide (NEvent.kmalloc_node 2001 1 ∈ r.2))) = some true := by decide
    rw [hrun] at hmem
    simpa using hmem
  exact ⟨k1, tr, hrun, hptr, hheap, hfreed 2001 1 hk, hinit⟩

end LRNG
